import Mathlib

/-!
Shallow embedding of the Rustle Logo interpreter (files rs_ast.rs, rs_error.rs,
rs_stack.rs, rs_variables.rs, rs_procedure.rs, rs_operators.rs, rs_turtle.rs,
rs_interpreter.rs, rs_parser.rs), with theorems settling the claims about the
value model, the operand stack, the operator evaluator, the variable and
procedure environments, the tree-walking evaluator and the parser.

Machine integers: Rust i32 values are modelled as unbounded Int together with
explicit range checks exactly where the source has them (checked_add and
friends), a two's-complement wrap where Rust release-mode unchecked addition
wraps, and an explicit panic outcome where Rust division overflow panics.
-/

namespace Rustle

/-! ## Machine-integer helpers (Rust i32 semantics) -/

def i32Min : Int := -2147483648

def i32Max : Int := 2147483647

/-- Rust checked arithmetic on i32: the mathematical result when it is
representable, none on overflow (checked_add / checked_sub / checked_mul all
reduce to this range test on the exact result). -/
def checkedI32 (n : Int) : Option Int :=
  if i32Min ≤ n ∧ n ≤ i32Max then some n else none

/-- Two's-complement wrap to i32, the behaviour of Rust's unchecked `+` in a
release build (in a debug build the same addition aborts the process). -/
def wrap32 (n : Int) : Int := (n + 2 ^ 31) % 2 ^ 32 - 2 ^ 31

/-- ASCII uppercase of one character; the inputs this interpreter uppercases
are ASCII, where Rust's to_uppercase agrees with this map. -/
def upChar (c : Char) : Char :=
  if 97 ≤ c.toNat && c.toNat ≤ 122 then Char.ofNat (c.toNat - 32) else c

def upStr (s : String) : String := String.mk (s.data.map upChar)

/-- Digit run of a decimal literal: all characters must be ASCII digits and
there must be at least one. -/
def digitsVal : List Char → Option Nat
  | [] => none
  | cs => go cs 0
where
  go : List Char → Nat → Option Nat
    | [], acc => some acc
    | c :: rest, acc =>
      if c.isDigit then go rest (acc * 10 + (c.toNat - 48)) else none

/-- Rust `str::parse::<i32>`: an optional sign, then one or more decimal
digits, and the value must fit in i32; anything else is a parse error. -/
def rustParseI32 (s : String) : Option Int :=
  match s.data with
  | '+' :: rest =>
    match digitsVal rest with
    | some n => if (n : Int) ≤ i32Max then some (n : Int) else none
    | none => none
  | '-' :: rest =>
    match digitsVal rest with
    | some n => if -(n : Int) ≥ i32Min then some (-(n : Int)) else none
    | none => none
  | _ =>
    match digitsVal s.data with
    | some n => if (n : Int) ≤ i32Max then some (n : Int) else none
    | none => none

/-! ## AST (rs_ast.rs) -/

inductive Value where
  | Number (n : Int)
  | String (s : String)
  | Variable (name : String)
  | Boolean (b : Bool)
deriving DecidableEq, Repr

inductive Operator where
  | Add
  | Subtract
  | Multiply
  | Divide
  | Equal
  | NotEqual
  | GreaterThan
  | LessThan
  | And
  | Or
deriving DecidableEq, Repr

inductive Expression where
  | Value (v : Value)
  | BinaryOp (op : Operator) (left : Expression) (right : Expression)
  | Query (q : String)
deriving DecidableEq, Repr

inductive Command where
  | PenUp
  | PenDown
  | Forward (e : Expression)
  | Back (e : Expression)
  | Left (e : Expression)
  | Right (e : Expression)
  | SetPenColor (e : Expression)
  | Turn (e : Expression)
  | SetHeading (e : Expression)
  | SetX (e : Expression)
  | SetY (e : Expression)
  | Make (nameExpr : Expression) (valueExpr : Expression)
  | AddAssign (name : String) (e : Expression)
  | If (cond : Expression) (body : List Command)
  | While (cond : Expression) (body : List Command)
  | Expression (e : Expression)
  | ProcedureDefinition (name : String) (parameters : List String) (body : List Command)
  | ProcedureCall (name : String) (arguments : List Expression)

/-! ## Errors (rs_error.rs) -/

inductive RSLogoError where
  | ParseError (input : String) (spanStart : Nat) (spanLen : Nat) (message : String)
  | IOError
  | InvalidArgument (command : String) (argument : String) (expected : String)
  | DrawError (msg : String)
  | ImageSaveError (msg : String)
  | UndefinedVariable (variableName : String) (definedVariables : List String)
  | StackUnderflow
  | DivisionByZero
  | TypeMismatch
  | InvalidExpression (msg : String)
  | InvalidOperator (op : String)
  | UnexpectedValue (expected : String) (got : String)
  | Overflow
deriving DecidableEq, Repr

/-- How a Rust computation can stop early: with a Result error, with a
process-aborting panic (e.g. i32 division overflow), or - an artefact of the
fuelled model only - because the model's fuel ran out. -/
inductive Halt where
  | fail (e : RSLogoError)
  | panic
  | nofuel
deriving DecidableEq, Repr

/-! ## Operand stack (rs_stack.rs)

The Rust Stack wraps a Vec with push at the end and pop from the end; we model
it as a list with the top at the head. -/

def popStack : List Value → Except Halt (Value × List Value)
  | [] => .error (.fail .StackUnderflow)
  | v :: rest => .ok (v, rest)

/-! ## Association-list stand-in for HashMap

HashMap name-to-value maps are modelled as association lists: insert replaces
an existing binding in place or appends a new one, lookup finds the binding.
Key iteration order of a Rust HashMap is unspecified; the association list
fixes one order, and no claim depends on it. -/

def lookupA {α : Type} : List (String × α) → String → Option α
  | [], _ => none
  | (k, v) :: rest, name => if k = name then some v else lookupA rest name

def insertA {α : Type} : List (String × α) → String → α → List (String × α)
  | [], name, v => [(name, v)]
  | (k, w) :: rest, name, v =>
    if k = name then (name, v) :: rest else (k, w) :: insertA rest name v

abbrev VarMap := List (String × Value)

def namesOf (vm : VarMap) : List String := vm.map Prod.fst

/-! ## Variable environment (rs_variables.rs) -/

/-- VariableManager::set with its normalizing coercion: a string equal
case-insensitively to TRUE/FALSE becomes a Boolean, any other string that
parses as an i32 becomes a Number, everything else is stored unchanged. -/
def setVar (vm : VarMap) (name : String) (value : Value) : VarMap :=
  let storedValue : Value :=
    match value with
    | .String s =>
      if upStr s = "TRUE" then .Boolean true
      else if upStr s = "FALSE" then .Boolean false
      else
        match rustParseI32 s with
        | some n => .Number n
        | none => value
    | _ => value
  insertA vm name storedValue

/-! ## Procedure registry and call-parameter stack (rs_procedure.rs) -/

structure Procedure where
  name : String
  parameters : List String
  body : List Command

/-- The parameter token's leading colon, stripped (Rust strip_prefix of a
colon character). -/
def stripColon (s : String) : Option String :=
  match s.data with
  | ':' :: rest => some (String.mk rest)
  | _ => none

/-- The definition-time parameter-name evaluation inside
ProcedureManager::define_procedure: a parameter that starts with a colon and
names a variable currently holding a string is replaced by that string;
every other parameter is kept as written. -/
def evalParams (vars : VarMap) : List String → List String
  | [] => []
  | param :: rest =>
    (match stripColon param with
     | some stripped =>
       match lookupA vars stripped with
       | some (.String s) => s
       | some _ => param
       | none => param
     | none => param) :: evalParams vars rest

def defineProcedure (procs : List (String × Procedure)) (name : String)
    (parameters : List String) (body : List Command) (vars : VarMap) :
    List (String × Procedure) :=
  insertA procs name ⟨name, evalParams vars parameters, body⟩

/-- ProcedureManager::get_parameter_value searches the call frames from the
most recent down; the head of the list is the top of the stack. -/
def getParameterValue : List VarMap → String → Option Value
  | [], _ => none
  | frame :: rest, name =>
    match lookupA frame name with
    | some v => some v
    | none => getParameterValue rest name

/-- The per-call binding frame built by push_parameters from the formal names
and the evaluated arguments. -/
def buildFrame (params : List String) (args : List Value) : VarMap :=
  (params.zip args).foldl (fun m pa => insertA m pa.1 pa.2) []

/-- ProcedureManager::push_parameters: arity mismatch is an InvalidArgument,
otherwise a new frame goes on top of the parameter stack. -/
def pushParameters (stack : List VarMap) (params : List String)
    (args : List Value) : Except Halt (List VarMap) :=
  if params.length ≠ args.length then
    .error (.fail (.InvalidArgument "procedure call"
      (toString args.length ++ " arguments")
      (toString params.length ++ " arguments")))
  else
    .ok (buildFrame params args :: stack)

/-! ## Operator evaluator (rs_operators.rs) -/

/-- The operators' to-integer conversion (rs_operators.rs value_to_number):
note that an unparseable string is a TypeMismatch here, unlike the
interpreter's value_to_int whose unparseable string is an UnexpectedValue. -/
def valueToNumber : Value → Except Halt Int
  | .Number n => .ok n
  | .String s =>
    match rustParseI32 s with
    | some n => .ok n
    | none => .error (.fail .TypeMismatch)
  | .Boolean b => .ok (if b then 1 else 0)
  | .Variable _ => .error (.fail .TypeMismatch)

/-- The operators' to-boolean conversion (rs_operators.rs value_to_bool). -/
def valueToBoolOp : Value → Except Halt Bool
  | .Boolean b => .ok b
  | .Number n => .ok (decide (n ≠ 0))
  | .String s => .ok (decide (upStr s = "TRUE"))
  | .Variable _ => .error (.fail .TypeMismatch)

def add (left right : Value) : Except Halt Value :=
  match valueToNumber left with
  | .error h => .error h
  | .ok l =>
    match valueToNumber right with
    | .error h => .error h
    | .ok r =>
      match checkedI32 (l + r) with
      | some n => .ok (.Number n)
      | none => .error (.fail .Overflow)

def subtract (left right : Value) : Except Halt Value :=
  match valueToNumber left with
  | .error h => .error h
  | .ok l =>
    match valueToNumber right with
    | .error h => .error h
    | .ok r =>
      match checkedI32 (l - r) with
      | some n => .ok (.Number n)
      | none => .error (.fail .Overflow)

def multiply (left right : Value) : Except Halt Value :=
  match valueToNumber left with
  | .error h => .error h
  | .ok l =>
    match valueToNumber right with
    | .error h => .error h
    | .ok r =>
      match checkedI32 (l * r) with
      | some n => .ok (.Number n)
      | none => .error (.fail .Overflow)

/-- Division. The source checks the divisor for zero and then divides with
Rust's `/`, which truncates toward zero; Rust's i32 division of i32::MIN by -1
panics in every build profile (the quotient is unrepresentable), modelled as
the panic outcome. -/
def divide (left right : Value) : Except Halt Value :=
  match valueToNumber left with
  | .error h => .error h
  | .ok l =>
    match valueToNumber right with
    | .error h => .error h
    | .ok r =>
      if r = 0 then .error (.fail .DivisionByZero)
      else if l = i32Min ∧ r = -1 then .error .panic
      else .ok (.Number (Int.tdiv l r))

def equal (left right : Value) : Except Halt Value :=
  match left, right with
  | .Number l, .Number r => .ok (.Boolean (decide (l = r)))
  | .String l, .String r => .ok (.Boolean (decide (upStr l = upStr r)))
  | .Boolean l, .Boolean r => .ok (.Boolean (decide (l = r)))
  | .Number l, .String r =>
    match rustParseI32 r with
    | some rn => .ok (.Boolean (decide (l = rn)))
    | none => .error (.fail .TypeMismatch)
  | .String l, .Number r =>
    match rustParseI32 l with
    | some ln => .ok (.Boolean (decide (r = ln)))
    | none => .error (.fail .TypeMismatch)
  | _, _ => .error (.fail .TypeMismatch)

def notEqual (left right : Value) : Except Halt Value :=
  match valueToNumber left with
  | .error h => .error h
  | .ok l =>
    match valueToNumber right with
    | .error h => .error h
    | .ok r => .ok (.Boolean (decide (l ≠ r)))

def greaterThan (left right : Value) : Except Halt Value :=
  match valueToNumber left with
  | .error h => .error h
  | .ok l =>
    match valueToNumber right with
    | .error h => .error h
    | .ok r => .ok (.Boolean (decide (l > r)))

def lessThan (left right : Value) : Except Halt Value :=
  match valueToNumber left with
  | .error h => .error h
  | .ok l =>
    match valueToNumber right with
    | .error h => .error h
    | .ok r => .ok (.Boolean (decide (l < r)))

def andOp (left right : Value) : Except Halt Value :=
  match valueToBoolOp left with
  | .error h => .error h
  | .ok l =>
    match valueToBoolOp right with
    | .error h => .error h
    | .ok r => .ok (.Boolean (l && r))

def orOp (left right : Value) : Except Halt Value :=
  match valueToBoolOp left with
  | .error h => .error h
  | .ok l =>
    match valueToBoolOp right with
    | .error h => .error h
    | .ok r => .ok (.Boolean (l || r))

/-- The operator dispatch inside Operator::apply, after the two pops. -/
def applyBin : Operator → Value → Value → Except Halt Value
  | .Add, l, r => add l r
  | .Subtract, l, r => subtract l r
  | .Multiply, l, r => multiply l r
  | .Divide, l, r => divide l r
  | .Equal, l, r => equal l r
  | .NotEqual, l, r => notEqual l r
  | .GreaterThan, l, r => greaterThan l r
  | .LessThan, l, r => lessThan l r
  | .And, l, r => andOp l r
  | .Or, l, r => orOp l r

/-- Operator::apply: pop the right operand, pop the left operand, apply the
operator; the result value is returned together with the remaining stack. -/
def Operator.apply (op : Operator) (stack : List Value) :
    Except Halt (Value × List Value) :=
  match popStack stack with
  | .error h => .error h
  | .ok (right, s1) =>
    match popStack s1 with
    | .error h => .error h
    | .ok (left, s2) =>
      match applyBin op left right with
      | .error h => .error h
      | .ok result => .ok (result, s2)

/-! ## Turtle (rs_turtle.rs)

The repository's Turtle owns an unsvg Image and delegates the geometry of a
movement to unsvg (draw_simple_line / get_end_coordinates). That collaborator
is outside the repository; movement end-coordinates are modelled by the
placeholder moveEnd below (no claim depends on the geometry), and a drawing
call is modelled as always succeeding. The pen, heading, position and colour
bookkeeping is translated from rs_turtle.rs. -/

structure Turtle where
  x : Int
  y : Int
  heading : Int
  penDown : Bool
  colorCode : Int
deriving DecidableEq, Repr

/-- Modelled from the spec: the external unsvg end-coordinate computation
consumed through the movement interface; its geometry lives outside the
repository, so this placeholder keeps the turtle in place. -/
def moveEnd (x y _dir _n : Int) : Int × Int := (x, y)

def processMovement (t : Turtle) (n dir : Int) : Turtle :=
  let p := moveEnd t.x t.y dir n
  { t with x := p.1, y := p.2 }

/-- Turtle::forward; a negative magnitude redirects to back, which then moves
with heading + 180 (the redirect is unfolded one step: its argument is
positive, so back does not redirect again). -/
def Turtle.forwardM (t : Turtle) (n : Int) : Turtle :=
  if n < 0 then processMovement t (-n) (t.heading + 180)
  else processMovement t n t.heading

/-- Turtle::back; a negative magnitude redirects to forward (heading
unchanged), unfolded one step. -/
def Turtle.backM (t : Turtle) (n : Int) : Turtle :=
  if n < 0 then processMovement t (-n) t.heading
  else processMovement t n (t.heading + 180)

/-- Turtle::left; a negative magnitude redirects to right with the negated
magnitude, which moves with heading + 90, unfolded one step. -/
def Turtle.leftM (t : Turtle) (n : Int) : Turtle :=
  if n < 0 then processMovement t (-n) (t.heading + 90)
  else processMovement t n (t.heading - 90)

/-- Turtle::right; a negative magnitude is forwarded to left with the same
negative value, which redirects back to right with it negated, so the net
effect (unfolded two steps) moves with heading + 90 by the absolute value. -/
def Turtle.rightM (t : Turtle) (n : Int) : Turtle :=
  if n < 0 then processMovement t (-n) (t.heading + 90)
  else processMovement t n (t.heading + 90)

/-- Turtle::set_pen_color: the collaborator's palette has 16 entries
(codes 0 to 15), a larger code is an InvalidArgument. -/
def Turtle.setPenColorM (t : Turtle) (c : Int) : Except Halt Turtle :=
  if 16 ≤ c then
    .error (.fail (.InvalidArgument "SETPENCOLOR" (toString c)
      "SETPENCOLOR <u32 type String>"))
  else .ok { t with colorCode := c }

/-- Modelled from the spec: the numeric code of the collaborator's initial
white pen colour; its value is external to the repository and no claim
depends on it. -/
def initColorCode : Int := 15

def Turtle.new (width height : Nat) : Turtle :=
  { x := ((width / 2 : Nat) : Int), y := ((height / 2 : Nat) : Int),
    heading := 0, penDown := false, colorCode := initColorCode }

/-! ## Interpreter state (rs_interpreter.rs) -/

structure State where
  turtle : Turtle
  vars : VarMap
  stack : List Value
  procedures : List (String × Procedure)
  paramStack : List VarMap

def State.new (width height : Nat) : State :=
  { turtle := Turtle.new width height, vars := [], stack := [],
    procedures := [], paramStack := [] }

/-- The outcome of one interpreter step. Rust mutates the interpreter through
an exclusive reference and reports errors through Result, so the mutated state
survives an error; both constructors therefore carry the state. -/
inductive StepRes (α : Type) where
  | ok (a : α) (s : State)
  | halt (h : Halt) (s : State)

/-- Debug formatting of a value, mirroring Rust's derived Debug just far
enough for the UnexpectedValue message built in resolve_variable_value. -/
def debugValue : Value → String
  | .Number n => "Number(" ++ toString n ++ ")"
  | .String s => "String(\"" ++ s ++ "\")"
  | .Variable v => "Variable(\"" ++ v ++ "\")"
  | .Boolean b => "Boolean(" ++ toString b ++ ")"

def debugOptValue : Option Value → String
  | some v => "Some(" ++ debugValue v ++ ")"
  | none => "None"

/-- Interpreter::resolve_variable_value: the global environment first, then
the parameter frames, strings and numbers convert to text, anything else is
an error. -/
def resolveVariableValue (st : State) (name : String) : Except Halt String :=
  match lookupA st.vars name with
  | some (.String s) => .ok s
  | some (.Number n) => .ok (toString n)
  | some v => .error (.fail (.UnexpectedValue "a string or number"
      (debugOptValue (some v))))
  | none =>
    match getParameterValue st.paramStack name with
    | some (.String s) => .ok s
    | some (.Number n) => .ok (toString n)
    | _ => .error (.fail (.UndefinedVariable name (namesOf st.vars)))

/-- Interpreter::resolve_value: a variable reference resolves through the
innermost parameter frame first, then the global environment with one level
of textual colon-indirection; a TRUE/FALSE string becomes a Boolean. -/
def resolveValue (st : State) : Value → Except Halt Value
  | .Variable name =>
    match getParameterValue st.paramStack name with
    | some paramValue => .ok paramValue
    | none =>
      match lookupA st.vars name with
      | some varValue =>
        match varValue with
        | .String s =>
          match stripColon s with
          | some referencedName =>
            match lookupA st.vars referencedName with
            | some finalValue => .ok finalValue
            | none => .error (.fail (.UndefinedVariable referencedName
                (namesOf st.vars)))
          | none => .ok (.String s)
        | _ => .ok varValue
      | none => .error (.fail (.UndefinedVariable name (namesOf st.vars)))
  | .String s =>
    if upStr s = "TRUE" then .ok (.Boolean true)
    else if upStr s = "FALSE" then .ok (.Boolean false)
    else .ok (.String s)
  | v => .ok v

/-- Interpreter::value_to_int. The Variable arm recurses through the stored
value; Rust's recursion diverges on a cyclic chain of variable references, so
the model carries fuel, and an acyclic chain needs at most one step per
defined variable (State.valueToInt below supplies that bound; exceeding it
models the Rust call-stack overflow as a panic). -/
def valueToIntFuel (st : State) : Nat → Value → Except Halt Int
  | 0, _ => .error .panic
  | _ + 1, .Number n => .ok n
  | _ + 1, .String s =>
    match rustParseI32 s with
    | some n => .ok n
    | none => .error (.fail (.UnexpectedValue "a number" s))
  | fuel + 1, .Variable varName =>
    match lookupA st.vars varName with
    | some varValue => valueToIntFuel st fuel varValue
    | none => .error (.fail (.UndefinedVariable varName (namesOf st.vars)))
  | _ + 1, .Boolean b => .ok (if b then 1 else 0)

def State.valueToInt (st : State) (v : Value) : Except Halt Int :=
  valueToIntFuel st (st.vars.length + 1) v

/-- Interpreter::value_to_bool (the wildcard arm catches Variable). -/
def valueToBool : Value → Except Halt Bool
  | .Boolean b => .ok b
  | .String s => .ok (decide (upStr s = "TRUE"))
  | .Number n => .ok (decide (n ≠ 0))
  | .Variable _ => .error (.fail .TypeMismatch)

/-- Interpreter::value_to_string. -/
def valueToString (st : State) : Value → Except Halt String
  | .String s => .ok s
  | .Number n => .ok (toString n)
  | .Variable var => resolveVariableValue st var
  | .Boolean b => .ok (toString b)

/-- Interpreter::resolve_query. -/
def resolveQuery (st : State) (q : String) : Except Halt Value :=
  if q = "XCOR" then .ok (.Number st.turtle.x)
  else if q = "YCOR" then .ok (.Number st.turtle.y)
  else if q = "HEADING" then .ok (.Number st.turtle.heading)
  else if q = "COLOR" then .ok (.Number st.turtle.colorCode)
  else .error (.fail (.InvalidArgument "query" q "XCOR, YCOR, HEADING, or COLOR"))

/-! ## Expression evaluation (rs_interpreter.rs evaluate_expression) -/

/-- Interpreter::evaluate_expression: a literal resolves and is pushed; a
binary operation evaluates left then right (each pushing its own result),
pushes both operand values again, and lets the operator pop exactly those
two; a query pushes its result. -/
def eval : Expression → State → StepRes Value
  | .Value v, s =>
    match resolveValue s v with
    | .error h => .halt h s
    | .ok resolved => .ok resolved { s with stack := resolved :: s.stack }
  | .BinaryOp op l r, s =>
    match eval l s with
    | .halt h s' => .halt h s'
    | .ok leftValue s1 =>
      match eval r s1 with
      | .halt h s' => .halt h s'
      | .ok rightValue s2 =>
        let s3 := { s2 with stack := rightValue :: leftValue :: s2.stack }
        match Operator.apply op s3.stack with
        | .error h => .halt h s3
        | .ok (result, rest) => .ok result { s3 with stack := rest }
  | .Query q, s =>
    match resolveQuery s q with
    | .error h => .halt h s
    | .ok result => .ok result { s with stack := result :: s.stack }

/-- The argument-evaluation loop of a procedure call: each argument expression
evaluated in order, results collected in order. -/
def evalArgs : List Expression → State → StepRes (List Value)
  | [], s => .ok [] s
  | e :: rest, s =>
    match eval e s with
    | .halt h s' => .halt h s'
    | .ok v s1 =>
      match evalArgs rest s1 with
      | .halt h s' => .halt h s'
      | .ok vs s2 => .ok (v :: vs) s2

/-! ## Command execution (rs_interpreter.rs execute_command)

The While loop and a procedure call's body can run unboundedly, so command
execution carries fuel; every recursive call decreases it, and exhaustion is
the distinguished nofuel outcome (only an artefact of the model - Rust simply
keeps running). -/

mutual

def execCmd : Nat → Command → State → StepRes Unit
  | 0, _, s => .halt .nofuel s
  | fuel + 1, cmd, s =>
    match cmd with
    | .PenUp => .ok () { s with turtle := { s.turtle with penDown := false } }
    | .PenDown => .ok () { s with turtle := { s.turtle with penDown := true } }
    | .Forward expr =>
      match eval expr s with
      | .halt h s' => .halt h s'
      | .ok v s1 =>
        match s1.valueToInt v with
        | .error h => .halt h s1
        | .ok amount => .ok () { s1 with turtle := s1.turtle.forwardM amount }
    | .Back expr =>
      match eval expr s with
      | .halt h s' => .halt h s'
      | .ok v s1 =>
        match s1.valueToInt v with
        | .error h => .halt h s1
        | .ok amount => .ok () { s1 with turtle := s1.turtle.backM amount }
    | .Left expr =>
      match eval expr s with
      | .halt h s' => .halt h s'
      | .ok v s1 =>
        match s1.valueToInt v with
        | .error h => .halt h s1
        | .ok amount => .ok () { s1 with turtle := s1.turtle.leftM amount }
    | .Right expr =>
      match eval expr s with
      | .halt h s' => .halt h s'
      | .ok v s1 =>
        match s1.valueToInt v with
        | .error h => .halt h s1
        | .ok amount => .ok () { s1 with turtle := s1.turtle.rightM amount }
    | .SetPenColor expr =>
      match eval expr s with
      | .halt h s' => .halt h s'
      | .ok v s1 =>
        match s1.valueToInt v with
        | .error h => .halt h s1
        | .ok color =>
          if ¬(0 ≤ color ∧ color ≤ 15) then
            .halt (.fail (.InvalidArgument "SETPENCOLOR" (toString color)
              "an integer between 0 and 15")) s1
          else
            match s1.turtle.setPenColorM color with
            | .error h => .halt h s1
            | .ok t => .ok () { s1 with turtle := t }
    | .Turn expr =>
      match eval expr s with
      | .halt h s' => .halt h s'
      | .ok v s1 =>
        match s1.valueToInt v with
        | .error h => .halt h s1
        | .ok degrees =>
          .ok () { s1 with turtle := { s1.turtle with heading := s1.turtle.heading + degrees } }
    | .SetHeading expr =>
      match eval expr s with
      | .halt h s' => .halt h s'
      | .ok v s1 =>
        match s1.valueToInt v with
        | .error h => .halt h s1
        | .ok degrees =>
          .ok () { s1 with turtle := { s1.turtle with heading := degrees } }
    | .SetX expr =>
      match eval expr s with
      | .halt h s' => .halt h s'
      | .ok v s1 =>
        match s1.valueToInt v with
        | .error h => .halt h s1
        | .ok location =>
          .ok () { s1 with turtle := { s1.turtle with x := location } }
    | .SetY expr =>
      match eval expr s with
      | .halt h s' => .halt h s'
      | .ok v s1 =>
        match s1.valueToInt v with
        | .error h => .halt h s1
        | .ok location =>
          .ok () { s1 with turtle := { s1.turtle with y := location } }
    | .Make nameExpr valueExpr =>
      match eval nameExpr s with
      | .halt h s' => .halt h s'
      | .ok name s1 =>
        match eval valueExpr s1 with
        | .halt h s' => .halt h s'
        | .ok value s2 =>
          match valueToString s2 name with
          | .error h => .halt h s2
          | .ok nameStr =>
            let storedValue : Value :=
              match value with
              | .String str =>
                match rustParseI32 str with
                | some n => .Number n
                | none => .String str
              | _ => value
            .ok () { s2 with vars := setVar s2.vars nameStr storedValue }
    | .AddAssign name expr =>
      match eval expr s with
      | .halt h s' => .halt h s'
      | .ok value s1 =>
        match s1.valueToInt value with
        | .error h => .halt h s1
        | .ok amount =>
          let varNameRes : Except Halt String :=
            match stripColon name with
            | some stripped => resolveVariableValue s1 stripped
            | none =>
              match lookupA s1.vars name with
              | some (.String str) => .ok str
              | _ => .ok name
          match varNameRes with
          | .error h => .halt h s1
          | .ok varName =>
            match lookupA s1.vars varName with
            | none => .halt (.fail (.UndefinedVariable varName
                (namesOf s1.vars))) s1
            | some currentValue =>
              match s1.valueToInt currentValue with
              | .error h => .halt h s1
              | .ok currentAmount =>
                let newValue := wrap32 (currentAmount + amount)
                .ok () { s1 with vars := setVar s1.vars varName (.Number newValue) }
    | .If cond body =>
      match eval cond s with
      | .halt h s' => .halt h s'
      | .ok conditionValue s1 =>
        match valueToBool conditionValue with
        | .error h => .halt h s1
        | .ok b =>
          if b then
            match execCmds fuel body s1 with
            | .halt h s' => .halt h s'
            | .ok _ s2 => .ok () s2
          else .ok () s1
    | .While cond body =>
      match eval cond s with
      | .halt h s' => .halt h s'
      | .ok conditionValue s1 =>
        match valueToBool conditionValue with
        | .error h => .halt h s1
        | .ok b =>
          if b then
            match execCmds fuel body s1 with
            | .halt h s' => .halt h s'
            | .ok _ s2 => execCmd fuel (.While cond body) s2
          else .ok () s1
    | .Expression expr =>
      match eval expr s with
      | .halt h s' => .halt h s'
      | .ok _ s1 => .ok () s1
    | .ProcedureDefinition name parameters body =>
      .ok () { s with procedures := defineProcedure s.procedures name parameters body s.vars }
    | .ProcedureCall name arguments =>
      match lookupA s.procedures name with
      | none => .halt (.fail (.InvalidArgument "procedure call" name
          "a defined procedure name")) s
      | some proc =>
        match evalArgs arguments s with
        | .halt h s' => .halt h s'
        | .ok args s1 =>
          match pushParameters s1.paramStack proc.parameters args with
          | .error h => .halt h s1
          | .ok newParamStack =>
            match execCmds fuel proc.body { s1 with paramStack := newParamStack } with
            | .halt h s' => .halt h s'
            | .ok _ s2 => .ok () { s2 with paramStack := s2.paramStack.tail }

def execCmds : Nat → List Command → State → StepRes Unit
  | 0, _, s => .halt .nofuel s
  | _ + 1, [], s => .ok () s
  | fuel + 1, c :: rest, s =>
    match execCmd fuel c s with
    | .halt h s' => .halt h s'
    | .ok _ s1 => execCmds fuel rest s1

end

/-- Interpreter::execute: the top-level command loop of a program run. -/
def execProgram (fuel : Nat) (commands : List Command) (s : State) : StepRes Unit :=
  execCmds fuel commands s

/-! ## Parser (rs_parser.rs)

The source is a nom recursive-descent parser over string slices. Input is
modelled as a list of characters; a parser either succeeds with the remaining
input and a result, or fails carrying the input slice at which it failed
(nom's Err::Error; this grammar uses no cut, so nom's Failure and Incomplete
never arise here). The recursive productions and the repetition loops carry
fuel; parseProgram supplies more than any input can consume, so the fuel-out
branch (a bare failure) is an artefact never reached from parseProgram. -/

inductive PRes (α : Type) where
  | ok (rest : List Char) (a : α)
  | errAt (input : List Char)

/-- Characters nom's multispace0/multispace1 accept. -/
def isMS (c : Char) : Bool := c = ' ' || c = '\t' || c = '\r' || c = '\n'

/-- Rust char::is_alphanumeric restricted to the ASCII programs this language
is written in. -/
def isAlnum (c : Char) : Bool := c.isAlpha || c.isDigit

def isIdentChar (c : Char) : Bool := isAlnum c || c = '_'

def isStrLitChar (c : Char) : Bool := isAlnum c || c = '_' || c = '-'

def tagP (t input : List Char) : PRes (List Char) :=
  if input.take t.length = t then .ok (input.drop t.length) t else .errAt input

def charP (c : Char) (input : List Char) : PRes Char :=
  match input with
  | c' :: rest => if c' = c then .ok rest c else .errAt input
  | [] => .errAt input

def takeWhile1 (p : Char → Bool) (input : List Char) : PRes (List Char) :=
  let m := input.takeWhile p
  if m.isEmpty then .errAt input else .ok (input.drop m.length) m

def multispace0 (input : List Char) : PRes (List Char) :=
  let m := input.takeWhile isMS
  .ok (input.drop m.length) m

def multispace1 (input : List Char) : PRes (List Char) := takeWhile1 isMS input

def digit1 (input : List Char) : PRes (List Char) := takeWhile1 Char.isDigit input

def lineEnding (input : List Char) : PRes (List Char) :=
  match tagP ['\n'] input with
  | .ok r a => .ok r a
  | .errAt _ => tagP ['\r', '\n'] input

def notLineEnding (input : List Char) : PRes (List Char) :=
  let m := input.takeWhile (fun c => !(c = '\r' || c = '\n'))
  .ok (input.drop m.length) m

def altP {α : Type} (p q : List Char → PRes α) (input : List Char) : PRes α :=
  match p input with
  | .ok r a => .ok r a
  | .errAt _ => q input

def mapP {α β : Type} (p : List Char → PRes α) (f : α → β)
    (input : List Char) : PRes β :=
  match p input with
  | .ok r a => .ok r (f a)
  | .errAt i => .errAt i

def optP {α : Type} (p : List Char → PRes α) (input : List Char) :
    PRes (Option α) :=
  match p input with
  | .ok r a => .ok r (some a)
  | .errAt _ => .ok input none

def precededP {α β : Type} (p : List Char → PRes α) (q : List Char → PRes β)
    (input : List Char) : PRes β :=
  match p input with
  | .ok r _ => q r
  | .errAt i => .errAt i

/-- nom's many0, with its infinite-loop guard: an inner success that consumes
nothing is an error. Fuelled; every genuine iteration consumes input. -/
def many0P {α : Type} (p : List Char → PRes α) :
    Nat → List Char → PRes (List α)
  | 0, input => .errAt input
  | fuel + 1, input =>
    match p input with
    | .errAt _ => .ok input []
    | .ok rest a =>
      if rest.length = input.length then .errAt input
      else
        match many0P p fuel rest with
        | .ok rest2 as_ => .ok rest2 (a :: as_)
        | .errAt i => .errAt i

/-- Comment parser: two slashes, the rest of the line, and an optional line
ending (used both inside procedure definitions and at top level). -/
def commentP (input : List Char) : PRes Unit :=
  match tagP ['/', '/'] input with
  | .errAt i => .errAt i
  | .ok r1 _ =>
    match notLineEnding r1 with
    | .errAt i => .errAt i
    | .ok r2 _ =>
      match optP lineEnding r2 with
      | .errAt i => .errAt i
      | .ok r3 _ => .ok r3 ()

/-- The whitespace-and-comments skipper used around a procedure body:
many0(alt((multispace1, line_ending, comment))). -/
def skipWsComments (fuel : Nat) (input : List Char) : PRes (List Unit) :=
  many0P (altP (mapP multispace1 (fun _ => ()))
    (altP (mapP lineEnding (fun _ => ())) commentP)) fuel input

/-! ### Value, operator and expression parsers -/

def parseValueStr (input : List Char) : PRes Value :=
  match charP '"' input with
  | .errAt _ => .errAt input
  | .ok r1 _ =>
    match takeWhile1 isStrLitChar r1 with
    | .errAt _ => .errAt input
    | .ok r2 cs => .ok r2 (.String (String.mk cs))

def parseValueNum (input : List Char) : PRes Value :=
  let (afterSign, sign) :=
    match charP '-' input with
    | .ok r _ => (r, ['-'])
    | .errAt _ => (input, ([] : List Char))
  match digit1 afterSign with
  | .errAt _ => .errAt input
  | .ok r2 ds =>
    match rustParseI32 (String.mk (sign ++ ds)) with
    | some n => .ok r2 (.Number n)
    | none => .errAt input

def parseValueVar (input : List Char) : PRes Value :=
  match charP ':' input with
  | .errAt _ => .errAt input
  | .ok r1 _ =>
    match takeWhile1 isIdentChar r1 with
    | .errAt _ => .errAt input
    | .ok r2 cs => .ok r2 (.Variable (String.mk cs))

def parseValueBool (input : List Char) : PRes Value :=
  match tagP ("TRUE".data) input with
  | .ok r _ => .ok r (.Boolean true)
  | .errAt _ =>
    match tagP ("FALSE".data) input with
    | .ok r _ => .ok r (.Boolean false)
    | .errAt i => .errAt i

/-- parse_value: quoted string, then signed number, then colon variable,
then TRUE/FALSE, in the source's alternative order. -/
def parseValue (input : List Char) : PRes Value :=
  altP parseValueStr (altP parseValueNum (altP parseValueVar parseValueBool)) input

def parseOperator (input : List Char) : PRes Operator :=
  altP (mapP (tagP ['+']) (fun _ => Operator.Add))
    (altP (mapP (tagP ['-']) (fun _ => Operator.Subtract))
    (altP (mapP (tagP ['*']) (fun _ => Operator.Multiply))
    (altP (mapP (tagP ['/']) (fun _ => Operator.Divide))
    (altP (mapP (tagP ("EQ".data)) (fun _ => Operator.Equal))
    (altP (mapP (tagP ("NE".data)) (fun _ => Operator.NotEqual))
    (altP (mapP (tagP ("GT".data)) (fun _ => Operator.GreaterThan))
    (altP (mapP (tagP ("LT".data)) (fun _ => Operator.LessThan))
    (altP (mapP (tagP ("AND".data)) (fun _ => Operator.And))
      (mapP (tagP ("OR".data)) (fun _ => Operator.Or)))))))))) input

def parseQueryExpr (input : List Char) : PRes Expression :=
  altP (mapP (tagP ("XCOR".data)) (fun _ => Expression.Query "XCOR"))
    (altP (mapP (tagP ("YCOR".data)) (fun _ => Expression.Query "YCOR"))
    (altP (mapP (tagP ("HEADING".data)) (fun _ => Expression.Query "HEADING"))
      (mapP (tagP ("COLOR".data)) (fun _ => Expression.Query "COLOR")))) input

/-- parse_expression: a value, else a prefix operator with two
whitespace-separated sub-expressions (the source's second alternative,
inlined here so the recursion is structural on the fuel), else a query
keyword. -/
def parseExpression : Nat → List Char → PRes Expression
  | 0, input => .errAt input
  | fuel + 1, input =>
    match parseValue input with
    | .ok r v => .ok r (.Value v)
    | .errAt _ =>
      match
        ((match parseOperator input with
        | .errAt i => .errAt i
        | .ok r1 op =>
          match multispace1 r1 with
          | .errAt i => .errAt i
          | .ok r2 _ =>
            match parseExpression fuel r2 with
            | .errAt i => .errAt i
            | .ok r3 l =>
              match multispace1 r3 with
              | .errAt i => .errAt i
              | .ok r4 _ =>
                match parseExpression fuel r4 with
                | .errAt i => .errAt i
                | .ok r5 r => .ok r5 (.BinaryOp op l r)) : PRes Expression) with
      | .ok r e => .ok r e
      | .errAt _ => parseQueryExpr input

/-- parse_parameter: a colon-led variable-style parameter or a quote-led
literal-style parameter. In both alternatives the prefix character is
consumed and only the bare identifier is returned (the Bool records which
alternative matched and is discarded by the caller). -/
def parseParameter (input : List Char) : PRes (String × Bool) :=
  match charP ':' input with
  | .ok r1 _ =>
    match takeWhile1 isIdentChar r1 with
    | .errAt _ =>
      match charP '"' input with
      | .errAt _ => .errAt input
      | .ok q1 _ =>
        match takeWhile1 isIdentChar q1 with
        | .errAt _ => .errAt input
        | .ok q2 cs => .ok q2 (String.mk cs, false)
    | .ok r2 cs => .ok r2 (String.mk cs, true)
  | .errAt _ =>
    match charP '"' input with
    | .errAt _ => .errAt input
    | .ok q1 _ =>
      match takeWhile1 isIdentChar q1 with
      | .errAt _ => .errAt input
      | .ok q2 cs => .ok q2 (String.mk cs, false)

/-! ### Command parsers

Each command parser mirrors the source's IResult of a Result: a nom-level
failure (the alternative does not match) is errAt, while a recognized command
with a semantic problem (extra argument, unterminated body) succeeds at the
nom level carrying an Except.error payload. -/

abbrev CmdRes := PRes (Except RSLogoError Command)

/-- The shape shared by the source's PENUP and PENDOWN arms: the keyword,
then an optional extra expression which makes the command invalid. -/
def parseZeroArg (fuel : Nat) (kw : List Char) (cmd : Command)
    (input : List Char) : CmdRes :=
  match tagP kw input with
  | .errAt i => .errAt i
  | .ok r1 _ =>
    match optP (precededP multispace1 (parseExpression fuel)) r1 with
    | .errAt i => .errAt i
    | .ok r2 (some _) =>
      .ok r2 (.error (.InvalidArgument (String.mk kw) "" "no arguments"))
    | .ok r2 none => .ok r2 (.ok cmd)

/-- The shape shared by the source's nine one-expression arms (FORWARD, BACK,
LEFT, RIGHT, SETPENCOLOR, TURN, SETHEADING, SETX, SETY): keyword, one
expression, and an optional extra expression which makes it invalid. -/
def parseOneArg (fuel : Nat) (kw : List Char) (mk : Expression → Command)
    (input : List Char) : CmdRes :=
  match tagP kw input with
  | .errAt i => .errAt i
  | .ok r1 _ =>
    match multispace1 r1 with
    | .errAt i => .errAt i
    | .ok r2 _ =>
      match parseExpression fuel r2 with
      | .errAt i => .errAt i
      | .ok r3 expr =>
        match optP (precededP multispace1 (parseExpression fuel)) r3 with
        | .errAt i => .errAt i
        | .ok r4 (some _) =>
          .ok r4 (.error (.InvalidArgument (String.mk kw) "" "only one argument"))
        | .ok r4 none => .ok r4 (.ok (mk expr))

def parseMakeCommand (fuel : Nat) (input : List Char) : CmdRes :=
  match tagP ("MAKE".data) input with
  | .errAt i => .errAt i
  | .ok r1 _ =>
    match multispace1 r1 with
    | .errAt i => .errAt i
    | .ok r2 _ =>
      match parseExpression fuel r2 with
      | .errAt i => .errAt i
      | .ok r3 nameExpr =>
        match multispace1 r3 with
        | .errAt i => .errAt i
        | .ok r4 _ =>
          match parseExpression fuel r4 with
          | .errAt i => .errAt i
          | .ok r5 valueExpr => .ok r5 (.ok (.Make nameExpr valueExpr))

/-- The ADDASSIGN arm: the target may be written with a quote or a colon
prefix, the prefix is stripped, and an extra third expression is invalid. -/
def parseAddAssign (fuel : Nat) (input : List Char) : CmdRes :=
  match tagP ("ADDASSIGN".data) input with
  | .errAt i => .errAt i
  | .ok r1 _ =>
    match multispace1 r1 with
    | .errAt i => .errAt i
    | .ok r2 _ =>
      match altP (precededP (charP '"') (takeWhile1 isIdentChar))
          (precededP (charP ':') (takeWhile1 isIdentChar)) r2 with
      | .errAt i => .errAt i
      | .ok r3 nameCs =>
        match multispace1 r3 with
        | .errAt i => .errAt i
        | .ok r4 _ =>
          match parseExpression fuel r4 with
          | .errAt i => .errAt i
          | .ok r5 expr =>
            match optP (precededP multispace1 (parseExpression fuel)) r5 with
            | .errAt i => .errAt i
            | .ok r6 (some _) =>
              .ok r6 (.error (.InvalidArgument "ADDASSIGN" "" "only two arguments"))
            | .ok r6 none => .ok r6 (.ok (.AddAssign (String.mk nameCs) expr))

/-- parse_procedure_call: an identifier other than TO or END, then
whitespace-led argument expressions. -/
def parseProcedureCall (fuel : Nat) (input : List Char) : CmdRes :=
  match takeWhile1 isIdentChar input with
  | .errAt i => .errAt i
  | .ok r1 nameCs =>
    let name := String.mk nameCs
    if name = "TO" ∨ name = "END" then .errAt input
    else
      match many0P (precededP multispace1 (parseExpression fuel)) fuel r1 with
      | .errAt i => .errAt i
      | .ok r2 args => .ok r2 (.ok (.ProcedureCall name args))

/-- The expression-statement arm. -/
def parseExprCommand (fuel : Nat) (input : List Char) : CmdRes :=
  match parseExpression fuel input with
  | .errAt i => .errAt i
  | .ok r e => .ok r (.ok (.Expression e))

/-- The thirteen non-recursive alternatives of parse_regular_command in the
source's order: the eleven fixed-arity keyword commands, then MAKE, then
ADDASSIGN. -/
def parseFixedCommand (fuel : Nat) (input : List Char) : CmdRes :=
  altP (parseZeroArg fuel ("PENUP".data) .PenUp)
    (altP (parseZeroArg fuel ("PENDOWN".data) .PenDown)
    (altP (parseOneArg fuel ("FORWARD".data) .Forward)
    (altP (parseOneArg fuel ("BACK".data) .Back)
    (altP (parseOneArg fuel ("LEFT".data) .Left)
    (altP (parseOneArg fuel ("RIGHT".data) .Right)
    (altP (parseOneArg fuel ("SETPENCOLOR".data) .SetPenColor)
    (altP (parseOneArg fuel ("TURN".data) .Turn)
    (altP (parseOneArg fuel ("SETHEADING".data) .SetHeading)
    (altP (parseOneArg fuel ("SETX".data) .SetX)
    (altP (parseOneArg fuel ("SETY".data) .SetY)
    (altP (parseMakeCommand fuel)
      (parseAddAssign fuel)))))))))))) input

/-- Rust's str::trim().is_empty() test on the remaining input. -/
def allWhitespace (cs : List Char) : Bool := cs.all isMS

def countNewlines (cs : List Char) : Nat := (cs.filter (fun c => c == '\n')).length

def unterminatedMsg (name : String) (count : Nat) : String :=
  "Unterminated procedure definition '" ++ name ++
    "': Expected 'END' keyword after " ++ toString count ++ " commands"

def endWithoutToMsg (lineNum : Nat) : String :=
  "Found 'END' command on line " ++ toString lineNum ++
    " without matching 'TO' procedure definition. Each 'END' must be paired with a 'TO' procedure definition."

/-- The parameter-collecting loop of parse_procedure_definition: skip
whitespace, try a parameter, stop (without consuming the skipped whitespace)
when none matches. -/
def paramLoop : Nat → List Char → List String → List Char × List String
  | 0, cur, ps => (cur, ps)
  | fuel + 1, cur, ps =>
    match multispace0 cur with
    | .errAt _ => (cur, ps)
    | .ok next _ =>
      match parseParameter next with
      | .ok remaining (name, _isVariable) => paramLoop fuel remaining (ps ++ [name])
      | .errAt _ => (cur, ps)

/-- Collecting an iterator of Results, as the source's collect does: the
commands up to the first error, or that first error. -/
def collectE : List (Except RSLogoError Command) → Except RSLogoError (List Command)
  | [] => .ok []
  | .error e :: _ => .error e
  | .ok c :: rest =>
    match collectE rest with
    | .ok cs => .ok (c :: cs)
    | .error e => .error e

mutual

/-- The command-until-END loop of parse_procedure_definition. Returns
(END found, current position, commands, command count); on a command that
parses to a semantic error or fails to parse, the loop breaks with the
position from before this iteration's whitespace skip, and an exhausted
input also breaks (both leave END unfound). -/
def procLoop : Nat → List Char → List Command → Nat →
    Bool × List Char × List Command × Nat
  | 0, cur, cmds, count => (false, cur, cmds, count)
  | fuel + 1, cur, cmds, count =>
    match skipWsComments fuel cur with
    | .errAt _ => (false, cur, cmds, count)
    | .ok next _ =>
      match tagP ("END".data) next with
      | .ok remaining _ => (true, remaining, cmds, count)
      | .errAt _ =>
        match parseRegularCommand fuel next with
        | .ok remaining (Except.ok cmd) =>
          if allWhitespace remaining then
            (false, remaining, cmds ++ [cmd], count + 1)
          else procLoop fuel remaining (cmds ++ [cmd]) (count + 1)
        | .ok _ (Except.error _) => (false, cur, cmds, count)
        | .errAt _ => (false, cur, cmds, count)

/-- parse_procedure_definition: TO, the name, the parameters, then commands
until END. Without an END the result is the unterminated-procedure parse
error, whose span starts where the body started relative to the input slice
this parser was handed. -/
def parseProcedureDefinition : Nat → List Char → CmdRes
  | 0, input => .errAt input
  | fuel + 1, input =>
    match tagP ("TO".data) input with
    | .errAt _ => .errAt input
    | .ok r1 _ =>
      match multispace1 r1 with
      | .errAt i => .errAt i
      | .ok r2 _ =>
        match takeWhile1 isIdentChar r2 with
        | .errAt i => .errAt i
        | .ok r3 nameCs =>
          let pl := paramLoop fuel r3 []
          match skipWsComments fuel pl.1 with
          | .errAt i => .errAt i
          | .ok current _ =>
            let startPos := input.length - current.length
            match procLoop fuel current [] 0 with
            | (true, currentPos, cmds, _count) =>
              .ok currentPos (.ok (.ProcedureDefinition (String.mk nameCs) pl.2 cmds))
            | (false, currentPos, _cmds, count) =>
              .ok currentPos (.error (.ParseError
                (String.mk (input.drop startPos)) startPos
                (input.length - startPos)
                (unterminatedMsg (String.mk nameCs) count)))

def parseIfCommand : Nat → List Char → CmdRes
  | 0, input => .errAt input
  | fuel + 1, input =>
    match tagP ("IF".data) input with
    | .errAt i => .errAt i
    | .ok r1 _ =>
      match multispace1 r1 with
      | .errAt i => .errAt i
      | .ok r2 _ =>
        match parseExpression fuel r2 with
        | .errAt i => .errAt i
        | .ok r3 cond =>
          match multispace0 r3 with
          | .errAt i => .errAt i
          | .ok r4 _ =>
            match parseCommandBlock fuel r4 with
            | .errAt i => .errAt i
            | .ok r5 (.ok body) => .ok r5 (.ok (.If cond body))
            | .ok r5 (.error e) => .ok r5 (.error e)

def parseWhileCommand : Nat → List Char → CmdRes
  | 0, input => .errAt input
  | fuel + 1, input =>
    match tagP ("WHILE".data) input with
    | .errAt i => .errAt i
    | .ok r1 _ =>
      match multispace1 r1 with
      | .errAt i => .errAt i
      | .ok r2 _ =>
        match parseExpression fuel r2 with
        | .errAt i => .errAt i
        | .ok r3 cond =>
          match multispace0 r3 with
          | .errAt i => .errAt i
          | .ok r4 _ =>
            match parseCommandBlock fuel r4 with
            | .errAt i => .errAt i
            | .ok r5 (.ok body) => .ok r5 (.ok (.While cond body))
            | .ok r5 (.error e) => .ok r5 (.error e)

/-- parse_command_block: commands between square brackets, each surrounded
by optional whitespace, collected with the first semantic error kept. -/
def parseCommandBlock : Nat → List Char → PRes (Except RSLogoError (List Command))
  | 0, input => .errAt input
  | fuel + 1, input =>
    match charP '[' input with
    | .errAt i => .errAt i
    | .ok r1 _ =>
      match blockItems fuel r1 with
      | .errAt i => .errAt i
      | .ok r2 items =>
        match charP ']' r2 with
        | .errAt i => .errAt i
        | .ok r3 _ => .ok r3 (collectE items)

/-- The many0(delimited(multispace0, parse_command, multispace0)) loop of
parse_command_block, inlined with nom's zero-consumption guard. -/
def blockItems : Nat → List Char → PRes (List (Except RSLogoError Command))
  | 0, input => .errAt input
  | fuel + 1, input =>
    match multispace0 input with
    | .errAt i => .errAt i
    | .ok r1 _ =>
      match parseCommand fuel r1 with
      | .errAt _ => .ok input []
      | .ok r2 cmd =>
        match multispace0 r2 with
        | .errAt i => .errAt i
        | .ok r3 _ =>
          if r3.length = input.length then .errAt input
          else
            match blockItems fuel r3 with
            | .errAt i => .errAt i
            | .ok r4 items => .ok r4 (cmd :: items)

/-- parse_regular_command: the source's ordered alternatives - the fixed
keyword commands, IF, WHILE, a bare expression statement, and finally a
procedure call. -/
def parseRegularCommand : Nat → List Char → CmdRes
  | 0, input => .errAt input
  | fuel + 1, input =>
    match parseFixedCommand fuel input with
    | .ok r c => .ok r c
    | .errAt _ =>
      match parseIfCommand fuel input with
      | .ok r c => .ok r c
      | .errAt _ =>
        match parseWhileCommand fuel input with
        | .ok r c => .ok r c
        | .errAt _ =>
          match parseExprCommand fuel input with
          | .ok r c => .ok r c
          | .errAt _ => parseProcedureCall fuel input

/-- parse_command: a bare END is reported as the END-without-TO parse error,
whose line number the source computes by counting newlines in the part of
parse_command's own input slice that the END tag consumed; otherwise a
procedure definition, then a regular command. -/
def parseCommand : Nat → List Char → CmdRes
  | 0, input => .errAt input
  | fuel + 1, input =>
    match tagP ("END".data) input with
    | .ok remaining _ =>
      let consumed := input.length - remaining.length
      let lineNum := countNewlines (input.take consumed) + 1
      .ok remaining (.error (.ParseError (String.mk input) consumed 3
        (endWithoutToMsg lineNum)))
    | .errAt _ =>
      match parseProcedureDefinition fuel input with
      | .ok r c => .ok r c
      | .errAt _ => parseRegularCommand fuel input

end

/-- Modelled from the spec and nom: the description text of the nom error
kind surfaced when the whole-program parse fails at the nom level; no claim
depends on this text. -/
def nomErrorDescription : String := "Tag"

/-- One item of the top-level loop: a comment, a whitespace-delimited
command, or a line ending, then trailing line endings. -/
def programItem (fuel : Nat) (input : List Char) :
    PRes (Option (Except RSLogoError Command)) :=
  let item :=
    altP (mapP commentP (fun _ => (none : Option (Except RSLogoError Command))))
      (altP
        (fun i =>
          match multispace0 i with
          | .errAt j => .errAt j
          | .ok r1 _ =>
            match parseCommand fuel r1 with
            | .errAt j => .errAt j
            | .ok r2 c =>
              match multispace0 r2 with
              | .errAt j => .errAt j
              | .ok r3 _ => .ok r3 (some c))
        (mapP lineEnding (fun _ => none)))
  match item input with
  | .errAt i => .errAt i
  | .ok r1 v =>
    match many0P lineEnding fuel r1 with
    | .errAt i => .errAt i
    | .ok r2 _ => .ok r2 v

/-- parse_program: an all-whitespace source is the empty program; otherwise
the all_consuming top-level loop, whose parsed commands collect to the first
semantic error if any; a nom-level failure becomes a ParseError spanning the
unconsumed input. -/
def parseProgram (source : String) : Except RSLogoError (List Command) :=
  let input := source.data
  if allWhitespace input then .ok []
  else
    let fuel := (input.length + 2) * (input.length + 2)
    match many0P (programItem fuel) fuel input with
    | .ok rest items =>
      if rest.isEmpty then
        collectE (items.filterMap id)
      else
        .error (.ParseError source (input.length - rest.length) rest.length
          ("Parse error: " ++ nomErrorDescription))
    | .errAt i =>
      .error (.ParseError source (input.length - i.length) i.length
        ("Parse error: " ++ nomErrorDescription))

/-! ## Observers and counting functions used by the theorems -/

/-- The leaf nodes (Value literals and Query nodes) of an expression. -/
def leafCount : Expression → Nat
  | .Value _ => 1
  | .Query _ => 1
  | .BinaryOp _ l r => leafCount l + leafCount r

/-- False exactly on the StackUnderflow halt. -/
def stackSafe {α : Type} : StepRes α → Bool
  | .halt (.fail .StackUnderflow) _ => false
  | _ => true

/-- False exactly on the StackUnderflow error. -/
def safeE {α : Type} : Except Halt α → Bool
  | .error (.fail .StackUnderflow) => false
  | _ => true

def haltOf {α : Type} : StepRes α → Option Halt
  | .halt h _ => some h
  | .ok _ _ => none

def isOkRes {α : Type} : StepRes α → Bool
  | .ok _ _ => true
  | .halt _ _ => false

def varOf (r : StepRes Unit) (n : String) : Option Value :=
  match r with
  | .ok _ s => lookupA s.vars n
  | .halt _ _ => none

def okVal : StepRes Value → Option Value
  | .ok v _ => some v
  | .halt _ _ => none

def procParamsOf (r : StepRes Unit) (n : String) : Option (List String) :=
  match r with
  | .ok _ s => (lookupA s.procedures n).map Procedure.parameters
  | .halt _ _ => none

/-- The 1-based line of a byte offset in a source text. -/
def lineOfOffset (src : String) (off : Nat) : Nat :=
  countNewlines (src.data.take off) + 1

/-! ## Lemmas about the operator evaluator -/

theorem apply_cons (op : Operator) (l r : Value) (rest : List Value) :
    Operator.apply op (r :: l :: rest) =
      match applyBin op l r with
      | .error h => .error h
      | .ok result => .ok (result, rest) := rfl

theorem valueToNumber_cases (v : Value) :
    (∃ n, valueToNumber v = .ok n) ∨ valueToNumber v = .error (.fail .TypeMismatch) := by
  cases v with
  | Number n => exact .inl ⟨n, rfl⟩
  | Boolean b => exact .inl ⟨_, rfl⟩
  | Variable name => exact .inr rfl
  | String s =>
    cases h : rustParseI32 s with
    | none => exact .inr (by simp [valueToNumber, h])
    | some n => exact .inl ⟨n, by simp [valueToNumber, h]⟩

theorem valueToBoolOp_cases (v : Value) :
    (∃ b, valueToBoolOp v = .ok b) ∨ valueToBoolOp v = .error (.fail .TypeMismatch) := by
  cases v with
  | Number n => exact .inl ⟨_, rfl⟩
  | Boolean b => exact .inl ⟨b, rfl⟩
  | Variable name => exact .inr rfl
  | String s => exact .inl ⟨_, rfl⟩

theorem applyBin_safe (op : Operator) (l r : Value) : safeE (applyBin op l r) = true := by
  cases op with
  | Add =>
    rcases valueToNumber_cases l with ⟨a, ha⟩ | ha <;>
      rcases valueToNumber_cases r with ⟨b, hb⟩ | hb <;>
      simp only [applyBin, add, ha, hb] <;>
      first
        | rfl
        | (split <;> rfl)
  | Subtract =>
    rcases valueToNumber_cases l with ⟨a, ha⟩ | ha <;>
      rcases valueToNumber_cases r with ⟨b, hb⟩ | hb <;>
      simp only [applyBin, subtract, ha, hb] <;>
      first
        | rfl
        | (split <;> rfl)
  | Multiply =>
    rcases valueToNumber_cases l with ⟨a, ha⟩ | ha <;>
      rcases valueToNumber_cases r with ⟨b, hb⟩ | hb <;>
      simp only [applyBin, multiply, ha, hb] <;>
      first
        | rfl
        | (split <;> rfl)
  | Divide =>
    rcases valueToNumber_cases l with ⟨a, ha⟩ | ha <;>
      rcases valueToNumber_cases r with ⟨b, hb⟩ | hb <;>
      simp only [applyBin, divide, ha, hb] <;>
      first
        | rfl
        | (split <;> first | rfl | (split <;> rfl))
  | Equal =>
    cases l <;> cases r <;> simp only [applyBin, equal] <;>
      first
        | rfl
        | (split <;> rfl)
  | NotEqual =>
    rcases valueToNumber_cases l with ⟨a, ha⟩ | ha <;>
      rcases valueToNumber_cases r with ⟨b, hb⟩ | hb <;>
      simp [applyBin, notEqual, ha, hb, safeE]
  | GreaterThan =>
    rcases valueToNumber_cases l with ⟨a, ha⟩ | ha <;>
      rcases valueToNumber_cases r with ⟨b, hb⟩ | hb <;>
      simp [applyBin, greaterThan, ha, hb, safeE]
  | LessThan =>
    rcases valueToNumber_cases l with ⟨a, ha⟩ | ha <;>
      rcases valueToNumber_cases r with ⟨b, hb⟩ | hb <;>
      simp [applyBin, lessThan, ha, hb, safeE]
  | And =>
    rcases valueToBoolOp_cases l with ⟨a, ha⟩ | ha <;>
      rcases valueToBoolOp_cases r with ⟨b, hb⟩ | hb <;>
      simp [applyBin, andOp, ha, hb, safeE]
  | Or =>
    rcases valueToBoolOp_cases l with ⟨a, ha⟩ | ha <;>
      rcases valueToBoolOp_cases r with ⟨b, hb⟩ | hb <;>
      simp [applyBin, orOp, ha, hb, safeE]

theorem resolveValue_safe (st : State) (v : Value) : safeE (resolveValue st v) = true := by
  cases v <;> simp only [resolveValue] <;> (repeat' split) <;> rfl

theorem resolveQuery_safe (st : State) (q : String) : safeE (resolveQuery st q) = true := by
  simp only [resolveQuery]
  repeat' split
  all_goals rfl

theorem stackSafe_of_safeE {α β : Type} (h : Halt) (s : State)
    (hh : safeE (Except.error h : Except Halt β) = true) :
    stackSafe (StepRes.halt h s : StepRes α) = true := by
  cases h with
  | fail e => cases e <;> simp_all [safeE, stackSafe]
  | panic => rfl
  | nofuel => rfl

/-! ## Lemmas about expression evaluation -/

theorem eval_stackSafe (e : Expression) : ∀ s : State, stackSafe (eval e s) = true := by
  induction e with
  | Value v =>
    intro s
    simp only [eval]
    cases h : resolveValue s v with
    | error hh =>
      have hs := resolveValue_safe s v
      rw [h] at hs
      exact stackSafe_of_safeE hh s hs
    | ok resolved => rfl
  | Query q =>
    intro s
    simp only [eval]
    cases h : resolveQuery s q with
    | error hh =>
      have hs := resolveQuery_safe s q
      rw [h] at hs
      exact stackSafe_of_safeE hh s hs
    | ok result => rfl
  | BinaryOp op l r ihl ihr =>
    intro s
    cases hl : eval l s with
    | halt h t =>
      have := ihl s
      rw [hl] at this
      simpa only [eval, hl] using this
    | ok lv s1 =>
      cases hr : eval r s1 with
      | halt h t =>
        have := ihr s1
        rw [hr] at this
        simpa only [eval, hl, hr] using this
      | ok rv s2 =>
        cases ha : applyBin op lv rv with
        | error h =>
          have hs := applyBin_safe op lv rv
          rw [ha] at hs
          simp only [eval, hl, hr, apply_cons, ha]
          exact stackSafe_of_safeE h _ hs
        | ok result =>
          simp only [eval, hl, hr, apply_cons, ha]
          rfl

/-- All state components except the operand stack agree. -/
def nonStackEq (s s' : State) : Prop :=
  s'.turtle = s.turtle ∧ s'.vars = s.vars ∧ s'.procedures = s.procedures ∧
    s'.paramStack = s.paramStack

theorem nonStackEq_rfl (s : State) : nonStackEq s s := ⟨rfl, rfl, rfl, rfl⟩

theorem nonStackEq_comp {s1 s2 s3 : State} (h1 : nonStackEq s1 s2)
    (h2 : nonStackEq s2 s3) : nonStackEq s1 s3 :=
  ⟨h2.1.trans h1.1, h2.2.1.trans h1.2.1, h2.2.2.1.trans h1.2.2.1,
    h2.2.2.2.trans h1.2.2.2⟩

/-- Evaluating an expression touches only the operand stack, which it extends:
on success by exactly one pushed value per leaf of the expression, on a halt
by however many values were pushed before the halt. -/
theorem eval_frame (e : Expression) : ∀ s : State,
    (∀ v s', eval e s = .ok v s' →
      nonStackEq s s' ∧ ∃ extra, s'.stack = extra ++ s.stack ∧
        extra.length = leafCount e) ∧
    (∀ h s', eval e s = .halt h s' →
      nonStackEq s s' ∧ ∃ extra, s'.stack = extra ++ s.stack) := by
  induction e with
  | Value v =>
    intro s
    constructor
    · intro vv s' heq
      cases hres : resolveValue s v with
      | error hh =>
        simp only [eval, hres] at heq
        exact StepRes.noConfusion heq
      | ok resolved =>
        simp only [eval, hres] at heq
        injection heq with h1 h2
        subst h2
        exact ⟨⟨rfl, rfl, rfl, rfl⟩, [resolved], rfl, rfl⟩
    · intro hh s' heq
      cases hres : resolveValue s v with
      | error hx =>
        simp only [eval, hres] at heq
        injection heq with h1 h2
        subst h2
        exact ⟨nonStackEq_rfl s, [], rfl⟩
      | ok resolved =>
        simp only [eval, hres] at heq
        exact StepRes.noConfusion heq
  | Query q =>
    intro s
    constructor
    · intro vv s' heq
      cases hres : resolveQuery s q with
      | error hh =>
        simp only [eval, hres] at heq
        exact StepRes.noConfusion heq
      | ok result =>
        simp only [eval, hres] at heq
        injection heq with h1 h2
        subst h2
        exact ⟨⟨rfl, rfl, rfl, rfl⟩, [result], rfl, rfl⟩
    · intro hh s' heq
      cases hres : resolveQuery s q with
      | error hx =>
        simp only [eval, hres] at heq
        injection heq with h1 h2
        subst h2
        exact ⟨nonStackEq_rfl s, [], rfl⟩
      | ok result =>
        simp only [eval, hres] at heq
        exact StepRes.noConfusion heq
  | BinaryOp op l r ihl ihr =>
    intro s
    constructor
    · intro v s' heq
      cases hl : eval l s with
      | halt h t =>
        simp only [eval, hl] at heq
        exact StepRes.noConfusion heq
      | ok lv s1 =>
        cases hr : eval r s1 with
        | halt h t =>
          simp only [eval, hl, hr] at heq
          exact StepRes.noConfusion heq
        | ok rv s2 =>
          cases ha : applyBin op lv rv with
          | error h =>
            simp only [eval, hl, hr, apply_cons, ha] at heq
            exact StepRes.noConfusion heq
          | ok result =>
            simp only [eval, hl, hr, apply_cons, ha] at heq
            injection heq with h1 h2
            subst h2
            obtain ⟨nse1, extra1, hst1, hlen1⟩ := (ihl s).1 lv s1 hl
            obtain ⟨nse2, extra2, hst2, hlen2⟩ := (ihr s1).1 rv s2 hr
            refine ⟨nonStackEq_comp (nonStackEq_comp nse1 nse2) ⟨rfl, rfl, rfl, rfl⟩,
              extra2 ++ extra1, ?_, ?_⟩
            · show s2.stack = (extra2 ++ extra1) ++ s.stack
              rw [hst2, hst1, List.append_assoc]
            · simp only [List.length_append, leafCount, hlen1, hlen2]
              omega
    · intro h s' heq
      cases hl : eval l s with
      | halt hx t =>
        simp only [eval, hl] at heq
        injection heq with h1 h2
        subst h2
        exact (ihl s).2 hx t hl
      | ok lv s1 =>
        cases hr : eval r s1 with
        | halt hx t =>
          simp only [eval, hl, hr] at heq
          injection heq with h1 h2
          subst h2
          obtain ⟨nse1, extra1, hst1, _⟩ := (ihl s).1 lv s1 hl
          obtain ⟨nse2, extra2, hst2⟩ := (ihr s1).2 hx t hr
          exact ⟨nonStackEq_comp nse1 nse2, extra2 ++ extra1,
            by rw [hst2, hst1, List.append_assoc]⟩
        | ok rv s2 =>
          cases ha : applyBin op lv rv with
          | ok result =>
            simp only [eval, hl, hr, apply_cons, ha] at heq
            exact StepRes.noConfusion heq
          | error hx =>
            simp only [eval, hl, hr, apply_cons, ha] at heq
            injection heq with h1 h2
            subst h2
            obtain ⟨nse1, extra1, hst1, _⟩ := (ihl s).1 lv s1 hl
            obtain ⟨nse2, extra2, hst2, _⟩ := (ihr s1).1 rv s2 hr
            refine ⟨nonStackEq_comp (nonStackEq_comp nse1 nse2) ⟨rfl, rfl, rfl, rfl⟩,
              rv :: lv :: (extra2 ++ extra1), ?_⟩
            show rv :: lv :: s2.stack = (rv :: lv :: (extra2 ++ extra1)) ++ s.stack
            rw [hst2, hst1]
            simp [List.append_assoc]

/-! ## Lemmas about the call-parameter stack across command execution -/

theorem eval_paramStack {e : Expression} {s : State} {v : Value} {s' : State}
    (h : eval e s = .ok v s') : s'.paramStack = s.paramStack :=
  ((eval_frame e s).1 v s' h).1.2.2.2

theorem eval_paramStack_halt {e : Expression} {s : State} {h : Halt} {s' : State}
    (hh : eval e s = .halt h s') : s'.paramStack = s.paramStack :=
  ((eval_frame e s).2 h s' hh).1.2.2.2

theorem evalArgs_frame (args : List Expression) : ∀ s : State,
    (∀ vs s', evalArgs args s = .ok vs s' → s'.paramStack = s.paramStack) ∧
    (∀ h s', evalArgs args s = .halt h s' → s'.paramStack = s.paramStack) := by
  induction args with
  | nil =>
    intro s
    constructor
    · intro vs s' heq
      simp only [evalArgs] at heq
      injection heq with h1 h2
      rw [← h2]
    · intro h s' heq
      simp only [evalArgs] at heq
      exact StepRes.noConfusion heq
  | cons e rest ih =>
    intro s
    constructor
    · intro vs s' heq
      cases hv : eval e s with
      | halt h t =>
        simp only [evalArgs, hv] at heq
        exact StepRes.noConfusion heq
      | ok v s1 =>
        cases hr : evalArgs rest s1 with
        | halt h t =>
          simp only [evalArgs, hv, hr] at heq
          exact StepRes.noConfusion heq
        | ok vs2 s2 =>
          simp only [evalArgs, hv, hr] at heq
          injection heq with h1 h2
          rw [← h2]
          exact ((ih s1).1 vs2 s2 hr).trans (eval_paramStack hv)
    · intro h s' heq
      cases hv : eval e s with
      | halt hx t =>
        simp only [evalArgs, hv] at heq
        injection heq with h1 h2
        rw [← h2]
        exact eval_paramStack_halt hv
      | ok v s1 =>
        cases hr : evalArgs rest s1 with
        | halt hx t =>
          simp only [evalArgs, hv, hr] at heq
          injection heq with h1 h2
          rw [← h2]
          exact ((ih s1).2 hx t hr).trans (eval_paramStack hv)
        | ok vs2 s2 =>
          simp only [evalArgs, hv, hr] at heq
          exact StepRes.noConfusion heq

theorem evalArgs_paramStack {args : List Expression} {s : State} {vs : List Value}
    {s' : State} (h : evalArgs args s = .ok vs s') : s'.paramStack = s.paramStack :=
  (evalArgs_frame args s).1 vs s' h

theorem evalArgs_paramStack_halt {args : List Expression} {s : State} {h : Halt}
    {s' : State} (hh : evalArgs args s = .halt h s') : s'.paramStack = s.paramStack :=
  (evalArgs_frame args s).2 h s' hh

/-- On success the parameter stack is restored exactly; on a halt it still
carries everything that was on it before (possibly with abandoned frames on
top). -/
def paramOK (s : State) : StepRes Unit → Prop
  | .ok _ s' => s'.paramStack = s.paramStack
  | .halt _ s' => ∃ t, s'.paramStack = t ++ s.paramStack

theorem pexists {s s' : State} (h : s'.paramStack = s.paramStack) :
    ∃ t, s'.paramStack = t ++ s.paramStack := ⟨[], by rw [h, List.nil_append]⟩

theorem paramOK_congr {s s2 : State} {r : StepRes Unit}
    (h : s2.paramStack = s.paramStack) (hp : paramOK s2 r) : paramOK s r := by
  cases r with
  | ok a s' =>
    show s'.paramStack = s.paramStack
    exact (show s'.paramStack = s2.paramStack from hp).trans h
  | halt hh s' =>
    obtain ⟨t, ht⟩ := hp
    exact ⟨t, by rw [ht, h]⟩

theorem pushParameters_ok {st : List VarMap} {params : List String}
    {args : List Value} {newPS : List VarMap}
    (h : pushParameters st params args = .ok newPS) :
    newPS = buildFrame params args :: st := by
  unfold pushParameters at h
  split at h
  · exact Except.noConfusion h
  · injection h with h'
    exact h'.symm

/-- The central invariant for C9: every command execution either restores the
parameter stack (success) or leaves the prior stack as a suffix (halt). -/
theorem exec_paramOK : ∀ fuel : Nat,
    (∀ c s, paramOK s (execCmd fuel c s)) ∧
    (∀ cs s, paramOK s (execCmds fuel cs s)) := by
  intro fuel
  induction fuel with
  | zero => exact ⟨fun c s => ⟨[], rfl⟩, fun cs s => ⟨[], rfl⟩⟩
  | succ fuel ih =>
    obtain ⟨ihc, ihcs⟩ := ih
    constructor
    · intro c s
      cases c with
      | PenUp => exact rfl
      | PenDown => exact rfl
      | Forward expr =>
        cases he : eval expr s with
        | halt h s1 =>
          simp only [execCmd, he]
          exact pexists (eval_paramStack_halt he)
        | ok v s1 =>
          simp only [execCmd, he]
          repeat' split
          all_goals first
            | exact pexists (eval_paramStack he)
            | (show s1.paramStack = s.paramStack
               exact eval_paramStack he)
      | Back expr =>
        cases he : eval expr s with
        | halt h s1 =>
          simp only [execCmd, he]
          exact pexists (eval_paramStack_halt he)
        | ok v s1 =>
          simp only [execCmd, he]
          repeat' split
          all_goals first
            | exact pexists (eval_paramStack he)
            | (show s1.paramStack = s.paramStack
               exact eval_paramStack he)
      | Left expr =>
        cases he : eval expr s with
        | halt h s1 =>
          simp only [execCmd, he]
          exact pexists (eval_paramStack_halt he)
        | ok v s1 =>
          simp only [execCmd, he]
          repeat' split
          all_goals first
            | exact pexists (eval_paramStack he)
            | (show s1.paramStack = s.paramStack
               exact eval_paramStack he)
      | Right expr =>
        cases he : eval expr s with
        | halt h s1 =>
          simp only [execCmd, he]
          exact pexists (eval_paramStack_halt he)
        | ok v s1 =>
          simp only [execCmd, he]
          repeat' split
          all_goals first
            | exact pexists (eval_paramStack he)
            | (show s1.paramStack = s.paramStack
               exact eval_paramStack he)
      | SetPenColor expr =>
        cases he : eval expr s with
        | halt h s1 =>
          simp only [execCmd, he]
          exact pexists (eval_paramStack_halt he)
        | ok v s1 =>
          simp only [execCmd, he]
          repeat' split
          all_goals first
            | exact pexists (eval_paramStack he)
            | (show s1.paramStack = s.paramStack
               exact eval_paramStack he)
      | Turn expr =>
        cases he : eval expr s with
        | halt h s1 =>
          simp only [execCmd, he]
          exact pexists (eval_paramStack_halt he)
        | ok v s1 =>
          simp only [execCmd, he]
          repeat' split
          all_goals first
            | exact pexists (eval_paramStack he)
            | (show s1.paramStack = s.paramStack
               exact eval_paramStack he)
      | SetHeading expr =>
        cases he : eval expr s with
        | halt h s1 =>
          simp only [execCmd, he]
          exact pexists (eval_paramStack_halt he)
        | ok v s1 =>
          simp only [execCmd, he]
          repeat' split
          all_goals first
            | exact pexists (eval_paramStack he)
            | (show s1.paramStack = s.paramStack
               exact eval_paramStack he)
      | SetX expr =>
        cases he : eval expr s with
        | halt h s1 =>
          simp only [execCmd, he]
          exact pexists (eval_paramStack_halt he)
        | ok v s1 =>
          simp only [execCmd, he]
          repeat' split
          all_goals first
            | exact pexists (eval_paramStack he)
            | (show s1.paramStack = s.paramStack
               exact eval_paramStack he)
      | SetY expr =>
        cases he : eval expr s with
        | halt h s1 =>
          simp only [execCmd, he]
          exact pexists (eval_paramStack_halt he)
        | ok v s1 =>
          simp only [execCmd, he]
          repeat' split
          all_goals first
            | exact pexists (eval_paramStack he)
            | (show s1.paramStack = s.paramStack
               exact eval_paramStack he)
      | Make nameExpr valueExpr =>
        cases h1 : eval nameExpr s with
        | halt h s1 =>
          simp only [execCmd, h1]
          exact pexists (eval_paramStack_halt h1)
        | ok name s1 =>
          cases h2 : eval valueExpr s1 with
          | halt h s2 =>
            simp only [execCmd, h1, h2]
            exact pexists ((eval_paramStack_halt h2).trans (eval_paramStack h1))
          | ok value s2 =>
            have heq2 : s2.paramStack = s.paramStack :=
              (eval_paramStack h2).trans (eval_paramStack h1)
            simp only [execCmd, h1, h2]
            repeat' split
            all_goals first
              | exact pexists heq2
              | (show s2.paramStack = s.paramStack
                 exact heq2)
      | AddAssign name expr =>
        cases he : eval expr s with
        | halt h s1 =>
          simp only [execCmd, he]
          exact pexists (eval_paramStack_halt he)
        | ok v s1 =>
          simp only [execCmd, he]
          repeat' split
          all_goals first
            | exact pexists (eval_paramStack he)
            | (show s1.paramStack = s.paramStack
               exact eval_paramStack he)
      | If cond body =>
        cases hc : eval cond s with
        | halt h s1 =>
          simp only [execCmd, hc]
          exact pexists (eval_paramStack_halt hc)
        | ok v s1 =>
          have hps := eval_paramStack hc
          simp only [execCmd, hc]
          cases hb : valueToBool v with
          | error h =>
            simp only [hb]
            exact pexists hps
          | ok b =>
            simp only [hb]
            split
            · cases hbody : execCmds fuel body s1 with
              | halt h s2 =>
                simp only [hbody]
                have hb2 := ihcs body s1
                rw [hbody] at hb2
                exact paramOK_congr hps hb2
              | ok a s2 =>
                simp only [hbody]
                have hb2 := ihcs body s1
                rw [hbody] at hb2
                exact paramOK_congr hps hb2
            · exact hps
      | While cond body =>
        cases hc : eval cond s with
        | halt h s1 =>
          simp only [execCmd, hc]
          exact pexists (eval_paramStack_halt hc)
        | ok v s1 =>
          have hps := eval_paramStack hc
          simp only [execCmd, hc]
          cases hb : valueToBool v with
          | error h =>
            simp only [hb]
            exact pexists hps
          | ok b =>
            simp only [hb]
            split
            · cases hbody : execCmds fuel body s1 with
              | halt h s2 =>
                simp only [hbody]
                have hb2 := ihcs body s1
                rw [hbody] at hb2
                exact paramOK_congr hps hb2
              | ok a s2 =>
                simp only [hbody]
                have hb2 := ihcs body s1
                rw [hbody] at hb2
                have hb2' : s2.paramStack = s1.paramStack := hb2
                exact paramOK_congr (hb2'.trans hps) (ihc (.While cond body) s2)
            · exact hps
      | Expression expr =>
        cases he : eval expr s with
        | halt h s1 =>
          simp only [execCmd, he]
          exact pexists (eval_paramStack_halt he)
        | ok v s1 =>
          simp only [execCmd, he]
          exact eval_paramStack he
      | ProcedureDefinition name parameters body => exact rfl
      | ProcedureCall name arguments =>
        cases hp : lookupA s.procedures name with
        | none =>
          simp only [execCmd, hp]
          exact pexists rfl
        | some proc =>
          cases hargs : evalArgs arguments s with
          | halt h s1 =>
            simp only [execCmd, hp, hargs]
            exact pexists (evalArgs_paramStack_halt hargs)
          | ok args s1 =>
            have hps : s1.paramStack = s.paramStack := evalArgs_paramStack hargs
            cases hpush : pushParameters s1.paramStack proc.parameters args with
            | error h =>
              simp only [execCmd, hp, hargs, hpush]
              exact pexists hps
            | ok newPS =>
              have hnew := pushParameters_ok hpush
              cases hbody : execCmds fuel proc.body { s1 with paramStack := newPS } with
              | halt h s2 =>
                simp only [execCmd, hp, hargs, hpush, hbody]
                have hb2 := ihcs proc.body { s1 with paramStack := newPS }
                rw [hbody] at hb2
                obtain ⟨t, ht⟩ := hb2
                refine ⟨t ++ [buildFrame proc.parameters args], ?_⟩
                rw [ht]
                show t ++ newPS = (t ++ [buildFrame proc.parameters args]) ++ s.paramStack
                rw [hnew, hps]
                simp [List.append_assoc]
              | ok a s2 =>
                simp only [execCmd, hp, hargs, hpush, hbody]
                have hb2 := ihcs proc.body { s1 with paramStack := newPS }
                rw [hbody] at hb2
                have hb2' : s2.paramStack = newPS := hb2
                show s2.paramStack.tail = s.paramStack
                rw [hb2', hnew]
                exact hps
    · intro cs s
      cases cs with
      | nil => exact rfl
      | cons c rest =>
        cases hc : execCmd fuel c s with
        | halt h s1 =>
          simp only [execCmds, hc]
          have h1 := ihc c s
          rw [hc] at h1
          exact h1
        | ok a s1 =>
          simp only [execCmds, hc]
          have h1 := ihc c s
          rw [hc] at h1
          have h1' : s1.paramStack = s.paramStack := h1
          exact paramOK_congr h1' (ihcs rest s1)

/-! ## Claim theorems -/

/-- C2: whenever a binary operator is applied during evaluation of a
BinaryOp expression, the operand stack holds at least two values, its top two
entries being the right operand (popped first) and then the left operand -
both operand expressions having been evaluated left then right and their
values pushed immediately before the operator is invoked - so the
StackUnderflow branch of pop is unreachable during evaluation of any
expression. -/
theorem c2_binary_op_stack_discipline :
    (∀ (e : Expression) (s : State), stackSafe (eval e s) = true) ∧
    (∀ (op : Operator) (l r : Value) (rest : List Value),
      Operator.apply op (r :: l :: rest) =
        match applyBin op l r with
        | .error h => .error h
        | .ok result => .ok (result, rest)) ∧
    (∀ (op : Operator) (le re : Expression) (s : State) (lv : Value) (s1 : State)
        (rv : Value) (s2 : State),
      eval le s = .ok lv s1 → eval re s1 = .ok rv s2 →
      eval (.BinaryOp op le re) s =
        match Operator.apply op (rv :: lv :: s2.stack) with
        | .error h => .halt h { s2 with stack := rv :: lv :: s2.stack }
        | .ok (result, rest) => .ok result { s2 with stack := rest }) := by
  refine ⟨eval_stackSafe, apply_cons, ?_⟩
  intro op le re s lv s1 rv s2 h1 h2
  cases ha : Operator.apply op (rv :: lv :: s2.stack) with
  | error h => simp only [eval, h1, h2, ha]
  | ok p =>
    cases p with
    | mk result rest => simp only [eval, h1, h2, ha]

theorem c2_witness :
    eval (.BinaryOp .Add (.Value (.Number 1)) (.Value (.Number 2))) (State.new 100 100) =
      .ok (.Number 3) { State.new 100 100 with stack := [.Number 2, .Number 1] } := by
  have h := c2_binary_op_stack_discipline.2.2 .Add (.Value (.Number 1))
    (.Value (.Number 2)) (State.new 100 100)
    (.Number 1) { State.new 100 100 with stack := [.Number 1] }
    (.Number 2) { State.new 100 100 with stack := [.Number 2, .Number 1] } rfl rfl
  exact h.trans (by rfl)

/-- C10: successfully evaluating any expression grows the operand stack by
exactly the number of its leaf nodes, with the original stack intact below
the pushed values - the stack never shrinks across expression evaluation. -/
theorem c10_eval_stack_growth (e : Expression) (s : State) (v : Value) (s' : State)
    (h : eval e s = .ok v s') :
    ∃ extra, s'.stack = extra ++ s.stack ∧ extra.length = leafCount e :=
  ((eval_frame e s).1 v s' h).2

theorem c10_witness :
    ∃ extra,
      ({ State.new 100 100 with stack := [.Number 2, .Number 1] } : State).stack =
        extra ++ (State.new 100 100).stack ∧
      extra.length = leafCount (.BinaryOp .Add (.Value (.Number 1)) (.Value (.Number 2))) :=
  c10_eval_stack_growth _ _ (.Number 3) _ rfl

/-- C9: when the pre-call steps of a procedure call succeed (lookup, argument
evaluation, frame push) and a command inside the body then fails, the error
propagates out of the call with the call's parameter frame still on the
parameter stack - pop_parameters is not reached; the frame is popped exactly
on the success path after all body commands complete. -/
theorem c9_procedure_call_frame (fuel : Nat) (name : String)
    (arguments : List Expression) (s : State) (proc : Procedure)
    (args : List Value) (s1 : State) (newPS : List VarMap)
    (hlook : lookupA s.procedures name = some proc)
    (hargs : evalArgs arguments s = .ok args s1)
    (hpush : pushParameters s1.paramStack proc.parameters args = .ok newPS) :
    (∀ e s2, execCmds fuel proc.body { s1 with paramStack := newPS } = .halt (.fail e) s2 →
      execCmd (fuel + 1) (.ProcedureCall name arguments) s = .halt (.fail e) s2 ∧
      ∃ t, s2.paramStack = t ++ buildFrame proc.parameters args :: s1.paramStack) ∧
    (∀ a s2, execCmds fuel proc.body { s1 with paramStack := newPS } = .ok a s2 →
      execCmd (fuel + 1) (.ProcedureCall name arguments) s =
        .ok () { s2 with paramStack := s2.paramStack.tail } ∧
      s2.paramStack = buildFrame proc.parameters args :: s1.paramStack) := by
  constructor
  · intro e s2 hbody
    constructor
    · simp only [execCmd, hlook, hargs, hpush, hbody]
    · have h := (exec_paramOK fuel).2 proc.body { s1 with paramStack := newPS }
      rw [hbody] at h
      obtain ⟨t, ht⟩ := h
      have ht' : s2.paramStack = t ++ newPS := ht
      rw [pushParameters_ok hpush] at ht'
      exact ⟨t, ht'⟩
  · intro a s2 hbody
    have h := (exec_paramOK fuel).2 proc.body { s1 with paramStack := newPS }
    rw [hbody] at h
    have h' : s2.paramStack = newPS := h
    constructor
    · simp only [execCmd, hlook, hargs, hpush, hbody]
    · rw [h', pushParameters_ok hpush]

def c9proc : Procedure :=
  ⟨"f", [], [.Expression (.BinaryOp .Divide (.Value (.Number 1)) (.Value (.Number 0)))]⟩

def c9s : State := { State.new 100 100 with procedures := [("f", c9proc)] }

def c9s2 : State :=
  { c9s with stack := [.Number 0, .Number 1, .Number 0, .Number 1], paramStack := [[]] }

theorem c9_witness :
    execCmd 6 (.ProcedureCall "f" []) c9s = .halt (.fail .DivisionByZero) c9s2 ∧
    ∃ t, c9s2.paramStack = t ++ buildFrame c9proc.parameters [] :: c9s.paramStack :=
  (c9_procedure_call_frame 5 "f" [] c9s c9proc [] c9s [[]] rfl rfl rfl).1
    .DivisionByZero c9s2 rfl

/-- Discriminator: is this an UnexpectedValue error? (Used to state that the
operators' conversion failure is not the UnexpectedValue the claim names.) -/
def isUnexpectedValueErr {α : Type} : Except Halt α → Bool
  | .error (.fail (.UnexpectedValue _ _)) => true
  | _ => false

/-- C5 counterexample: applying NE to the unparseable string "abc" yields
TypeMismatch, not the UnexpectedValue error the claim states. -/
theorem c5_counterexample :
    applyBin .NotEqual (.String "abc") (.Number 1) = .error (.fail .TypeMismatch) ∧
    isUnexpectedValueErr (applyBin .NotEqual (.String "abc") (.Number 1)) = false := by
  exact ⟨rfl, rfl⟩

/-- C5 (amended): the operators' to-integer conversion maps a Number to
itself and a Boolean to 0/1, fails with TypeMismatch (not UnexpectedValue)
when the operand is a String not parseable as a base-10 signed integer, and
fails with TypeMismatch when the operand is an unresolved VariableRef; every
integer-coercing operator (NE, GT, LT and the arithmetic operators) fails the
same way on such a string operand. -/
theorem c5_operator_int_coercion :
    (∀ n, valueToNumber (.Number n) = .ok n) ∧
    (∀ b, valueToNumber (.Boolean b) = .ok (if b then 1 else 0)) ∧
    (∀ name, valueToNumber (.Variable name) = .error (.fail .TypeMismatch)) ∧
    (∀ s n, rustParseI32 s = some n → valueToNumber (.String s) = .ok n) ∧
    (∀ s, rustParseI32 s = none →
      valueToNumber (.String s) = .error (.fail .TypeMismatch) ∧
      ∀ r, notEqual (.String s) r = .error (.fail .TypeMismatch) ∧
        greaterThan (.String s) r = .error (.fail .TypeMismatch) ∧
        lessThan (.String s) r = .error (.fail .TypeMismatch) ∧
        add (.String s) r = .error (.fail .TypeMismatch) ∧
        subtract (.String s) r = .error (.fail .TypeMismatch) ∧
        multiply (.String s) r = .error (.fail .TypeMismatch) ∧
        divide (.String s) r = .error (.fail .TypeMismatch)) := by
  refine ⟨fun n => rfl, fun b => rfl, fun name => rfl, ?_, ?_⟩
  · intro s n hs
    simp [valueToNumber, hs]
  · intro s hs
    have hv : valueToNumber (.String s) = .error (.fail .TypeMismatch) := by
      simp [valueToNumber, hs]
    refine ⟨hv, ?_⟩
    intro r
    refine ⟨?_, ?_, ?_, ?_, ?_, ?_, ?_⟩ <;>
      simp only [notEqual, greaterThan, lessThan, add, subtract, multiply, divide, hv]

theorem c5_witness :
    valueToNumber (.String "abc") = .error (.fail .TypeMismatch) ∧
    greaterThan (.String "abc") (.Number 0) = .error (.fail .TypeMismatch) ∧
    valueToNumber (.Number 7) = .ok 7 := by
  refine ⟨(c5_operator_int_coercion.2.2.2.2 "abc" rfl).1,
    ((c5_operator_int_coercion.2.2.2.2 "abc" rfl).2 (.Number 0)).2.1,
    c5_operator_int_coercion.1 7⟩

/-- C6 counterexample: dividing i32::MIN by -1 does not compute the
truncating quotient (which is unrepresentable in i32) - the Rust division
panics, modelled as the panic outcome. -/
theorem c6_counterexample :
    divide (.Number i32Min) (.Number (-1)) = .error .panic ∧
    Int.tdiv i32Min (-1) = 2147483648 ∧
    (Except.error Halt.panic ≠
      (Except.ok (.Number 2147483648) : Except Halt Value)) := by
  refine ⟨rfl, by decide, by simp⟩

/-- C6 (amended): +, - and * on integer operands yield Overflow exactly when
the mathematical result lies outside the i32 range; / with right operand 0
yields DivisionByZero; / of i32::MIN by -1 panics (Rust division overflow)
rather than returning a value; every other division computes the truncating
integer quotient; in particular / 10 0 yields DivisionByZero and
+ 2147483647 1 yields Overflow. -/
theorem c6_checked_arithmetic :
    (∀ a b : Int, add (.Number a) (.Number b) =
      if i32Min ≤ a + b ∧ a + b ≤ i32Max then .ok (.Number (a + b))
      else .error (.fail .Overflow)) ∧
    (∀ a b : Int, subtract (.Number a) (.Number b) =
      if i32Min ≤ a - b ∧ a - b ≤ i32Max then .ok (.Number (a - b))
      else .error (.fail .Overflow)) ∧
    (∀ a b : Int, multiply (.Number a) (.Number b) =
      if i32Min ≤ a * b ∧ a * b ≤ i32Max then .ok (.Number (a * b))
      else .error (.fail .Overflow)) ∧
    (∀ a : Int, divide (.Number a) (.Number 0) = .error (.fail .DivisionByZero)) ∧
    (∀ a b : Int, b ≠ 0 → ¬(a = i32Min ∧ b = -1) →
      divide (.Number a) (.Number b) = .ok (.Number (Int.tdiv a b))) ∧
    divide (.Number i32Min) (.Number (-1)) = .error .panic ∧
    haltOf (eval (.BinaryOp .Divide (.Value (.Number 10)) (.Value (.Number 0)))
      (State.new 100 100)) = some (.fail .DivisionByZero) ∧
    haltOf (eval (.BinaryOp .Add (.Value (.Number 2147483647)) (.Value (.Number 1)))
      (State.new 100 100)) = some (.fail .Overflow) := by
  refine ⟨?_, ?_, ?_, ?_, ?_, rfl, rfl, rfl⟩
  · intro a b
    by_cases hP : i32Min ≤ a + b ∧ a + b ≤ i32Max
    · simp only [add, valueToNumber, checkedI32, if_pos hP]
    · simp only [add, valueToNumber, checkedI32, if_neg hP]
  · intro a b
    by_cases hP : i32Min ≤ a - b ∧ a - b ≤ i32Max
    · simp only [subtract, valueToNumber, checkedI32, if_pos hP]
    · simp only [subtract, valueToNumber, checkedI32, if_neg hP]
  · intro a b
    by_cases hP : i32Min ≤ a * b ∧ a * b ≤ i32Max
    · simp only [multiply, valueToNumber, checkedI32, if_pos hP]
    · simp only [multiply, valueToNumber, checkedI32, if_neg hP]
  · intro a
    simp [divide, valueToNumber]
  · intro a b hb hmin
    simp [divide, valueToNumber, hb, hmin]

theorem c6_witness :
    add (.Number 2147483647) (.Number 1) = .error (.fail .Overflow) ∧
    divide (.Number 10) (.Number 0) = .error (.fail .DivisionByZero) ∧
    divide (.Number 7) (.Number 2) = .ok (.Number 3) := by
  refine ⟨?_, c6_checked_arithmetic.2.2.2.1 10, ?_⟩
  · have h := c6_checked_arithmetic.1 2147483647 1
    rw [h, if_neg (by decide)]
  · have h := c6_checked_arithmetic.2.2.2.2.1 7 2 (by decide) (by decide)
    rw [h, show Int.tdiv 7 2 = 3 from by decide]

/-- The claim's normalization rule for variable storage, written from the
spec's words: TRUE/FALSE strings (case-insensitively) become Booleans, other
integer-parseable strings become Numbers, everything else is unchanged. -/
def specNormalizeC7 : Value → Value
  | .String s =>
    if upStr s = "TRUE" then .Boolean true
    else if upStr s = "FALSE" then .Boolean false
    else
      match rustParseI32 s with
      | some n => .Number n
      | none => .String s
  | v => v

def c7After : State :=
  match execCmd 5 (.Make (.Value (.String "x")) (.Value (.String "5")))
      (State.new 100 100) with
  | .ok _ s => s
  | .halt _ s => s

/-- C7: set(name, value) normalizes the value before storage exactly as the
claim's rule states, and consequently after MAKE "x "5 reading :x in an
arithmetic context yields the integer 5. -/
theorem c7_set_normalization :
    (∀ (vm : VarMap) (name : String) (value : Value),
      setVar vm name value = insertA vm name (specNormalizeC7 value)) ∧
    varOf (execCmd 5 (.Make (.Value (.String "x")) (.Value (.String "5")))
      (State.new 100 100)) "x" = some (.Number 5) ∧
    okVal (eval (.BinaryOp .Add (.Value (.Variable "x")) (.Value (.Number 0)))
      c7After) = some (.Number 5) := by
  refine ⟨?_, rfl, rfl⟩
  intro vm name value
  cases value <;> rfl

theorem c7_witness :
    setVar [] "flag" (.String "TRUE") =
      insertA [] "flag" (specNormalizeC7 (.String "TRUE")) :=
  c7_set_normalization.1 [] "flag" (.String "TRUE")

def c3sTen : State := { State.new 100 100 with vars := [("count", .Number 10)] }

def c3sMax : State := { State.new 100 100 with vars := [("count", .Number 2147483647)] }

/-- C3: ADDASSIGN on an undefined target yields UndefinedVariable naming it,
and on count = 10 stores 11; but the sum is computed with Rust's unchecked
`+`, so at count = 2147483647 adding 1 wraps to -2147483648 (release-build
behaviour; a debug build aborts) and the run continues - the Overflow error
the claim states is never produced. -/
theorem c3_addassign_behaviour :
    haltOf (execCmd 5 (.AddAssign "count" (.Value (.Number 1))) (State.new 100 100)) =
      some (.fail (.UndefinedVariable "count" [])) ∧
    varOf (execCmd 5 (.AddAssign "count" (.Value (.Number 1))) c3sTen) "count" =
      some (.Number 11) ∧
    varOf (execCmd 5 (.AddAssign "count" (.Value (.Number 1))) c3sMax) "count" =
      some (.Number (-2147483648)) ∧
    haltOf (execCmd 5 (.AddAssign "count" (.Value (.Number 1))) c3sMax) = none := by
  exact ⟨rfl, rfl, rfl, rfl⟩

/-- C4: parsing a source whose END token (without an open TO) sits on line 2
produces the END-without-TO parse error, but the error message names line 1:
parse_command counts newlines only inside the three characters of its local
slice that the END tag consumed, so the reported line is always 1. -/
theorem c4_end_line_number :
    parseProgram "PENUP\nEND" = .error (.ParseError "END" 3 3 (endWithoutToMsg 1)) ∧
    lineOfOffset "PENUP\nEND" 6 = 2 := by
  exact ⟨rfl, rfl⟩

theorem takeWhile1_ok {p : Char → Bool} {input rest cs : List Char}
    (h : takeWhile1 p input = .ok rest cs) :
    cs = input.takeWhile p ∧ cs ≠ [] := by
  simp only [takeWhile1] at h
  split at h
  · exact PRes.noConfusion h
  · next hne =>
    injection h with h1 h2
    refine ⟨h2.symm, ?_⟩
    rw [← h2]
    intro hnil
    rw [hnil] at hne
    exact hne rfl

theorem stripColon_of_identChars {cs : List Char} (hne : cs ≠ [])
    (hall : ∀ c ∈ cs, isIdentChar c = true) :
    stripColon (String.mk cs) = none := by
  cases cs with
  | nil => exact absurd rfl hne
  | cons c cs' =>
    have hc : isIdentChar c = true := hall c (List.mem_cons_self c cs')
    have hcne : c ≠ ':' := by
      intro hEq
      rw [hEq] at hc
      exact absurd hc (by decide)
    unfold stripColon
    split
    · next rest heq =>
      injection heq with hch _
      exact absurd hch hcne
    · rfl

theorem stripColon_of_takeWhile1 {r1 r2 cs : List Char}
    (h : takeWhile1 isIdentChar r1 = .ok r2 cs) :
    stripColon (String.mk cs) = none := by
  obtain ⟨hcs, hne⟩ := takeWhile1_ok h
  apply stripColon_of_identChars hne
  intro ch hch
  rw [hcs] at hch
  exact List.mem_takeWhile_imp hch

/-- C1 (amended): the parser strips the colon or quote prefix from every
procedure parameter, so define_procedure receives bare identifier names;
since no such name starts with a colon, the definition-time substitution
branch never fires, and the registry stores the written parameter tokens
verbatim (prefixes stripped, no replacement by variable values). -/
theorem c1_parameters_stored_verbatim :
    (∀ (input rest : List Char) (name : String) (isVar : Bool),
      parseParameter input = .ok rest (name, isVar) → stripColon name = none) ∧
    (∀ (vars : VarMap) (params : List String),
      (∀ p ∈ params, stripColon p = none) → evalParams vars params = params) := by
  constructor
  · intro input rest name isVar h
    cases h1 : charP ':' input with
    | ok r1 c =>
      cases h2 : takeWhile1 isIdentChar r1 with
      | ok r2 cs =>
        simp only [parseParameter, h1, h2] at h
        injection h with ha hb
        injection hb with hb1 hb2
        rw [← hb1]
        exact stripColon_of_takeWhile1 h2
      | errAt i =>
        cases h3 : charP '"' input with
        | ok q1 c2 =>
          cases h4 : takeWhile1 isIdentChar q1 with
          | ok q2 cs =>
            simp only [parseParameter, h1, h2, h3, h4] at h
            injection h with ha hb
            injection hb with hb1 hb2
            rw [← hb1]
            exact stripColon_of_takeWhile1 h4
          | errAt j =>
            simp only [parseParameter, h1, h2, h3, h4] at h
            exact PRes.noConfusion h
        | errAt j =>
          simp only [parseParameter, h1, h2, h3] at h
          exact PRes.noConfusion h
    | errAt i =>
      cases h3 : charP '"' input with
      | ok q1 c2 =>
        cases h4 : takeWhile1 isIdentChar q1 with
        | ok q2 cs =>
          simp only [parseParameter, h1, h3, h4] at h
          injection h with ha hb
          injection hb with hb1 hb2
          rw [← hb1]
          exact stripColon_of_takeWhile1 h4
        | errAt j =>
          simp only [parseParameter, h1, h3, h4] at h
          exact PRes.noConfusion h
      | errAt j =>
        simp only [parseParameter, h1, h3] at h
        exact PRes.noConfusion h
  · intro vars params hall
    induction params with
    | nil => rfl
    | cons p rest ih =>
      have hp : stripColon p = none := hall p (List.mem_cons_self p rest)
      have hrest := ih (fun q hq => hall q (List.mem_cons_of_mem p hq))
      simp only [evalParams, hp, hrest]

theorem c1_witness :
    stripColon "x" = none ∧
    evalParams [("y", .String "z")] ["x", "n1"] = ["x", "n1"] := by
  constructor
  · exact c1_parameters_stored_verbatim.1 (":x".data) [] "x" true rfl
  · exact c1_parameters_stored_verbatim.2 [("y", .String "z")] ["x", "n1"] (by decide)

def c1prog : String := "MAKE \"x \"hello\nTO f :x\nEND"

def c1cmds : List Command :=
  [.Make (.Value (.String "x")) (.Value (.String "hello")),
   .ProcedureDefinition "f" ["x"] []]

/-- C1 counterexample: in the program MAKE "x "hello / TO f :x / END, the
formal parameter is written :x while x holds the string "hello"; the claim's
substitution rule would store ["hello"] (as evalParams does when handed the
raw token ":x"), but the parser strips the colon and the registry stores
["x"]. -/
theorem c1_counterexample :
    parseProgram c1prog = .ok c1cmds ∧
    evalParams [("x", .String "hello")] [":x"] = ["hello"] ∧
    procParamsOf (execCmds 10 c1cmds (State.new 100 100)) "f" = some ["x"] ∧
    (["x"] : List String) ≠ ["hello"] := by
  refine ⟨rfl, rfl, rfl, by decide⟩

def c8cond : Expression :=
  .BinaryOp .LessThan (.Value (.Variable "i")) (.Value (.Number 3))

def c8body : List Command :=
  [.Make (.Value (.String "i")) (.BinaryOp .Add (.Value (.Variable "i")) (.Value (.Number 1)))]

def c8s0 : State := { State.new 100 100 with vars := [("i", .Number 0)] }

/-- One loop iteration of the concrete WHILE example, derived from the
embedded evaluator: condition evaluated on the current state, body executed
when it holds. -/
def c8stage : Nat → Option State
  | 0 => some c8s0
  | k + 1 =>
    match c8stage k with
    | none => none
    | some s =>
      match eval c8cond s with
      | .halt _ _ => none
      | .ok v s1 =>
        match valueToBool v with
        | .error _ => none
        | .ok false => none
        | .ok true =>
          match execCmds 50 c8body s1 with
          | .halt _ _ => none
          | .ok _ s2 => some s2

def c8condAt (k : Nat) : Option Bool :=
  match c8stage k with
  | none => none
  | some s =>
    match eval c8cond s with
    | .halt _ _ => none
    | .ok v _ =>
      match valueToBool v with
      | .error _ => none
      | .ok b => some b

def c8iAt (k : Nat) : Option Value :=
  match c8stage k with
  | none => none
  | some s => lookupA s.vars "i"

/-- C8: While re-evaluates its condition before every iteration, including
the first, and terminates as soon as the condition is false; in the concrete
program WHILE LT :i 3 [ MAKE "i + :i 1 ] from i = 0 the condition holds at
stages 0, 1 and 2 and fails at stage 3, the body runs exactly 3 times
(i is 1, 2, 3 after iterations 1, 2, 3), and execution terminates with
i = 3. -/
theorem c8_while_semantics :
    (∀ (cond : Expression) (body : List Command) (s : State) (v : Value)
        (s1 : State) (fuel : Nat),
      eval cond s = .ok v s1 → valueToBool v = .ok false →
      execCmd (fuel + 1) (.While cond body) s = .ok () s1) ∧
    (∀ (cond : Expression) (body : List Command) (s : State) (v : Value)
        (s1 s2 : State) (a : Unit) (fuel : Nat),
      eval cond s = .ok v s1 → valueToBool v = .ok true →
      execCmds fuel body s1 = .ok a s2 →
      execCmd (fuel + 1) (.While cond body) s = execCmd fuel (.While cond body) s2) ∧
    c8condAt 0 = some true ∧ c8condAt 1 = some true ∧ c8condAt 2 = some true ∧
    c8condAt 3 = some false ∧
    c8iAt 1 = some (.Number 1) ∧ c8iAt 2 = some (.Number 2) ∧
    c8iAt 3 = some (.Number 3) ∧
    isOkRes (execCmd 50 (.While c8cond c8body) c8s0) = true ∧
    varOf (execCmd 50 (.While c8cond c8body) c8s0) "i" = some (.Number 3) := by
  refine ⟨?_, ?_, rfl, rfl, rfl, rfl, rfl, rfl, rfl, rfl, rfl⟩
  · intro cond body s v s1 fuel h1 h2
    simp only [execCmd, h1, h2, Bool.false_eq_true, if_false]
  · intro cond body s v s1 s2 a fuel h1 h2 h3
    simp only [execCmd, h1, h2, if_true, h3]

theorem c8_witness :
    execCmd 1 (.While (.Value (.Boolean false)) []) (State.new 100 100) =
      .ok () { State.new 100 100 with stack := [.Boolean false] } :=
  c8_while_semantics.1 (.Value (.Boolean false)) [] (State.new 100 100)
    (.Boolean false) { State.new 100 100 with stack := [.Boolean false] } 0 rfl rfl

end Rustle
